import Mathlib

/-!
Verification model of the IQM pulse-level playlist format
(`iqm_data_definitions/protos/iqm/data_definitions/common/v1/setting.proto`)
together with the validating builder/executor core described by the design
specification of the repository.

The data model below is a direct shallow embedding of the protobuf messages in
`setting.proto`.  Protobuf `double` fields are modelled as rationals (`ℚ`),
`uint64` as `Nat`, `sint64`/`int64` as `Int`, and `map` fields as association
lists.  The wire codec, validator and executor are not present in the
repository sources (only the schema is), so they are modelled from the
specification, as marked on each such definition.
-/

namespace IqmPlaylist

/-- Waveform parameter messages of `setting.proto` (`Gaussian`,
`GaussianDerivative`, `Constant`, `GaussianSmoothedSquare`, `TruncatedGaussian`,
`TruncatedGaussianDerivative`, `TruncatedGaussianSmoothedSquare`,
`CosineRiseFall`, `Samples`), flattened into one tagged variant exactly as the
`waveform_description` oneof of message `Waveform` lists them. -/
inductive WaveformDesc where
  | samples (samples : List ℚ)
  | gaussian (sigma center_offset : ℚ)
  | gaussian_derivative (sigma center_offset : ℚ)
  | constant
  | gaussian_smoothed_square (square_width gaussian_sigma center_offset : ℚ)
  | truncated_gaussian (full_width center_offset : ℚ)
  | truncated_gaussian_derivative (full_width center_offset : ℚ)
  | truncated_gaussian_smoothed_square (full_width center_offset rise_time : ℚ)
  | cosine_rise_fall (full_width center_offset rise_time : ℚ)
  deriving DecidableEq

/-- Message `Waveform`: declared sample count plus the description oneof. -/
structure Waveform where
  n_samples : Nat
  waveform_description : WaveformDesc
  deriving DecidableEq

/-- Message `RealPulse`. -/
structure RealPulse where
  waveform_ref : Nat
  scale : ℚ
  deriving DecidableEq

/-- Message `IQPulse`. -/
structure IQPulse where
  waveform_i_ref : Nat
  waveform_q_ref : Nat
  scale_i : ℚ
  scale_q : ℚ
  phase : ℚ
  phase_mod_freq : ℚ
  phase_increment : ℚ
  deriving DecidableEq

/-- The `pulse` oneof of `MultiplexedIQPulse.Entry`. -/
inductive MpxIQEntryPulse where
  | instruction_ref (r : Nat)
  | iq_pulse (p : IQPulse)
  deriving DecidableEq

/-- Message `MultiplexedIQPulse.Entry`: a signed sample offset plus the pulse
oneof. -/
structure MpxIQEntry where
  offset_samples : Int
  pulse : MpxIQEntryPulse
  deriving DecidableEq

/-- Message `MultiplexedIQPulse`. -/
structure MultiplexedIQPulse where
  entries : List MpxIQEntry
  deriving DecidableEq

/-- The `pulse` oneof of `MultiplexedRealPulse.Entry`. -/
inductive MpxRealEntryPulse where
  | instruction_ref (r : Nat)
  | real_pulse (p : RealPulse)
  deriving DecidableEq

/-- Message `MultiplexedRealPulse.Entry`. -/
structure MpxRealEntry where
  offset_samples : Int
  pulse : MpxRealEntryPulse
  deriving DecidableEq

/-- Message `MultiplexedRealPulse`. -/
structure MultiplexedRealPulse where
  entries : List MpxRealEntry
  deriving DecidableEq

/-- Message `ReadoutTrigger`; the field name `acqusitions` keeps the spelling
used in `setting.proto`. -/
structure ReadoutTrigger where
  probe_pulse_ref : Nat
  acqusitions : List Nat
  deriving DecidableEq

/-- Message `ConditionalInstruction`. -/
structure ConditionalInstruction where
  condition : String
  if_true : Nat
  if_false : Nat
  deriving DecidableEq

/-- The `operation` oneof of message `Instruction`; `Wait` and `VirtualRZ`
fields are inlined (`Wait` has no fields, `VirtualRZ` has one `double`). -/
inductive Operation where
  | multiplexed_real_pulse (p : MultiplexedRealPulse)
  | multiplexed_iq_pulse (p : MultiplexedIQPulse)
  | wait
  | real_pulse (p : RealPulse)
  | iq_pulse (p : IQPulse)
  | virtual_rz (phase_increment : ℚ)
  | conditional_instruction (c : ConditionalInstruction)
  | readout_trigger (t : ReadoutTrigger)
  deriving DecidableEq

/-- Message `Instruction`: duration in channel sample periods plus the
operation oneof. -/
structure Instruction where
  duration_samples : Nat
  operation : Operation
  deriving DecidableEq

/-- The `acquisition_type` oneof of message `AcquisitionMethod`
(`TimeTrace`, `ComplexIntegration`, `ThresholdStateDiscrimination`). -/
inductive AcquisitionType where
  | timetrace (duration_samples : Nat)
  | integration (weights : IQPulse)
  | threshold_discrimination (weights : IQPulse) (threshold : ℚ)
      (feedback_signal_label : String)
  deriving DecidableEq

/-- Message `AcquisitionMethod`. -/
structure AcquisitionMethod where
  label : String
  delay_samples : Nat
  acquisition_type : AcquisitionType
  deriving DecidableEq

/-- Message `ChannelConfiguration`: the `extended` oneof over
`IQChannelConfig`, `RealChannelConfig` and `ReadoutChannelConfig`, each of
which carries a single `sample_rate` double. -/
inductive ChannelConfiguration where
  | iq_channel (sample_rate : ℚ)
  | real_channel (sample_rate : ℚ)
  | ro_channel (sample_rate : ℚ)
  deriving DecidableEq

/-- Message `ChannelDescription`. -/
structure ChannelDescription where
  controller_name : String
  channel_config : ChannelConfiguration
  instruction_table : List Instruction
  waveform_table : List Waveform
  acquisition_table : List AcquisitionMethod
  deriving DecidableEq

/-- Message `Schedule.Channel`: instruction table references for one control
channel. -/
structure ScheduleChannel where
  instruction_refs : List Nat
  deriving DecidableEq

/-- Message `Schedule`: mapping from channel names to their contents,
modelled as an association list. -/
structure Schedule where
  channels : List (String × ScheduleChannel)
  deriving DecidableEq

/-- Message `Playlist`: the channel map plus the ordered schedules. -/
structure Playlist where
  channels : List (String × ChannelDescription)
  schedules : List Schedule
  deriving DecidableEq

/-! ### Wire codec

Modelled from the spec: the repository sources contain only the protobuf
schema, not an encoder/decoder implementation, so the wire representation is
modelled from the specification's description: a length-prefixed,
schema-versioned binary encoding with self-describing tagged unions for the
`Instruction`/`Waveform`/`AcquisitionMethod`/`ChannelConfiguration` variants
and integer indices for all references.  Variant tags reuse the protobuf field
numbers of `setting.proto`.  A malformed or unknown-tag encoding decodes to
`none` (no partial Playlist is ever returned). -/

/-- Encoding of an unsigned integer as one token. -/
def encNat (n : Nat) : List Nat := [n]

/-- Decoder for `encNat`. -/
def decNat : List Nat → Option (Nat × List Nat)
  | n :: r => some (n, r)
  | [] => none

/-- Encoding of a signed integer: a sign tag followed by the absolute value. -/
def encInt (i : Int) : List Nat := if i < 0 then [1, i.natAbs] else [0, i.natAbs]

/-- Decoder for `encInt`; unknown sign tags are rejected. -/
def decInt : List Nat → Option (Int × List Nat)
  | 0 :: n :: r => some ((n : Int), r)
  | 1 :: n :: r => some (-(n : Int), r)
  | _ => none

/-- Encoding of a scalar (a protobuf `double`, modelled as `ℚ`): numerator then
denominator. -/
def encRat (q : ℚ) : List Nat := encInt q.num ++ [q.den]

/-- Decoder for `encRat`. -/
def decRat (l : List Nat) : Option (ℚ × List Nat) := do
  let (n, l) ← decInt l
  let (d, l) ← decNat l
  pure ((n : ℚ) / (d : ℚ), l)

/-- Encoding of one character as its code point. -/
def encChar (c : Char) : List Nat := [c.toNat]

/-- Decoder for `encChar`. -/
def decChar : List Nat → Option (Char × List Nat)
  | n :: r => some (Char.ofNat n, r)
  | [] => none

/-- Length-prefixed encoding of a repeated field. -/
def encListG (f : α → List Nat) (xs : List α) : List Nat := xs.length :: xs.flatMap f

/-- Decoder for a known number of repeated elements. -/
def decListN (g : List Nat → Option (α × List Nat)) :
    Nat → List Nat → Option (List α × List Nat)
  | 0, l => some ([], l)
  | n + 1, l => do
    let (x, l) ← g l
    let (xs, l) ← decListN g n l
    pure (x :: xs, l)

/-- Decoder for `encListG`. -/
def decListG (g : List Nat → Option (α × List Nat)) (l : List Nat) :
    Option (List α × List Nat) := do
  let (n, l) ← decNat l
  decListN g n l

/-- Length-prefixed encoding of a string. -/
def encString (s : String) : List Nat := encListG encChar s.data

/-- Decoder for `encString`. -/
def decString (l : List Nat) : Option (String × List Nat) := do
  let (cs, l) ← decListG decChar l
  pure (String.mk cs, l)

/-- Encoding of the `waveform_description` oneof; tags are the protobuf field
numbers (2–10). -/
def encWaveformDesc : IqmPlaylist.WaveformDesc → List Nat
  | .samples s => 2 :: encListG encRat s
  | .gaussian a b => 3 :: (encRat a ++ encRat b)
  | .gaussian_derivative a b => 4 :: (encRat a ++ encRat b)
  | .constant => [5]
  | .gaussian_smoothed_square a b c => 6 :: (encRat a ++ encRat b ++ encRat c)
  | .truncated_gaussian a b => 7 :: (encRat a ++ encRat b)
  | .truncated_gaussian_derivative a b => 8 :: (encRat a ++ encRat b)
  | .truncated_gaussian_smoothed_square a b c => 9 :: (encRat a ++ encRat b ++ encRat c)
  | .cosine_rise_fall a b c => 10 :: (encRat a ++ encRat b ++ encRat c)

/-- Decoder for `encWaveformDesc`; an unsupported variant tag decodes to
`none`. -/
def decWaveformDesc : List Nat → Option (IqmPlaylist.WaveformDesc × List Nat)
  | 2 :: l => do
    let (s, l) ← decListG decRat l
    pure (.samples s, l)
  | 3 :: l => do
    let (a, l) ← decRat l
    let (b, l) ← decRat l
    pure (.gaussian a b, l)
  | 4 :: l => do
    let (a, l) ← decRat l
    let (b, l) ← decRat l
    pure (.gaussian_derivative a b, l)
  | 5 :: l => some (.constant, l)
  | 6 :: l => do
    let (a, l) ← decRat l
    let (b, l) ← decRat l
    let (c, l) ← decRat l
    pure (.gaussian_smoothed_square a b c, l)
  | 7 :: l => do
    let (a, l) ← decRat l
    let (b, l) ← decRat l
    pure (.truncated_gaussian a b, l)
  | 8 :: l => do
    let (a, l) ← decRat l
    let (b, l) ← decRat l
    pure (.truncated_gaussian_derivative a b, l)
  | 9 :: l => do
    let (a, l) ← decRat l
    let (b, l) ← decRat l
    let (c, l) ← decRat l
    pure (.truncated_gaussian_smoothed_square a b c, l)
  | 10 :: l => do
    let (a, l) ← decRat l
    let (b, l) ← decRat l
    let (c, l) ← decRat l
    pure (.cosine_rise_fall a b c, l)
  | _ => none

/-- Encoding of message `Waveform`. -/
def encWaveform (w : IqmPlaylist.Waveform) : List Nat :=
  encNat w.n_samples ++ encWaveformDesc w.waveform_description

/-- Decoder for `encWaveform`. -/
def decWaveform (l : List Nat) : Option (IqmPlaylist.Waveform × List Nat) := do
  let (n, l) ← decNat l
  let (d, l) ← decWaveformDesc l
  pure (⟨n, d⟩, l)

/-- Encoding of message `RealPulse`. -/
def encRealPulse (p : IqmPlaylist.RealPulse) : List Nat :=
  encNat p.waveform_ref ++ encRat p.scale

/-- Decoder for `encRealPulse`. -/
def decRealPulse (l : List Nat) : Option (IqmPlaylist.RealPulse × List Nat) := do
  let (w, l) ← decNat l
  let (s, l) ← decRat l
  pure (⟨w, s⟩, l)

/-- Encoding of message `IQPulse`. -/
def encIQPulse (p : IqmPlaylist.IQPulse) : List Nat :=
  encNat p.waveform_i_ref ++ encNat p.waveform_q_ref ++ encRat p.scale_i ++
    encRat p.scale_q ++ encRat p.phase ++ encRat p.phase_mod_freq ++
    encRat p.phase_increment

/-- Decoder for `encIQPulse`. -/
def decIQPulse (l : List Nat) : Option (IqmPlaylist.IQPulse × List Nat) := do
  let (wi, l) ← decNat l
  let (wq, l) ← decNat l
  let (si, l) ← decRat l
  let (sq, l) ← decRat l
  let (ph, l) ← decRat l
  let (pm, l) ← decRat l
  let (pi, l) ← decRat l
  pure (⟨wi, wq, si, sq, ph, pm, pi⟩, l)

/-- Encoding of `MultiplexedIQPulse.Entry`: the signed offset followed by the
tagged `pulse` oneof (field numbers 1 and 2). -/
def encMpxIQEntry (e : IqmPlaylist.MpxIQEntry) : List Nat :=
  encInt e.offset_samples ++
    match e.pulse with
    | .instruction_ref r => 1 :: encNat r
    | .iq_pulse p => 2 :: encIQPulse p

/-- Decoder for `encMpxIQEntry`. -/
def decMpxIQEntry (l : List Nat) : Option (IqmPlaylist.MpxIQEntry × List Nat) := do
  let (off, l) ← decInt l
  match l with
  | 1 :: l => do
    let (r, l) ← decNat l
    pure (⟨off, .instruction_ref r⟩, l)
  | 2 :: l => do
    let (p, l) ← decIQPulse l
    pure (⟨off, .iq_pulse p⟩, l)
  | _ => none

/-- Encoding of message `MultiplexedIQPulse`. -/
def encMultiplexedIQPulse (m : IqmPlaylist.MultiplexedIQPulse) : List Nat :=
  encListG encMpxIQEntry m.entries

/-- Decoder for `encMultiplexedIQPulse`. -/
def decMultiplexedIQPulse (l : List Nat) :
    Option (IqmPlaylist.MultiplexedIQPulse × List Nat) := do
  let (es, l) ← decListG decMpxIQEntry l
  pure (⟨es⟩, l)

/-- Encoding of `MultiplexedRealPulse.Entry`. -/
def encMpxRealEntry (e : IqmPlaylist.MpxRealEntry) : List Nat :=
  encInt e.offset_samples ++
    match e.pulse with
    | .instruction_ref r => 1 :: encNat r
    | .real_pulse p => 2 :: encRealPulse p

/-- Decoder for `encMpxRealEntry`. -/
def decMpxRealEntry (l : List Nat) : Option (IqmPlaylist.MpxRealEntry × List Nat) := do
  let (off, l) ← decInt l
  match l with
  | 1 :: l => do
    let (r, l) ← decNat l
    pure (⟨off, .instruction_ref r⟩, l)
  | 2 :: l => do
    let (p, l) ← decRealPulse l
    pure (⟨off, .real_pulse p⟩, l)
  | _ => none

/-- Encoding of message `MultiplexedRealPulse`. -/
def encMultiplexedRealPulse (m : IqmPlaylist.MultiplexedRealPulse) : List Nat :=
  encListG encMpxRealEntry m.entries

/-- Decoder for `encMultiplexedRealPulse`. -/
def decMultiplexedRealPulse (l : List Nat) :
    Option (IqmPlaylist.MultiplexedRealPulse × List Nat) := do
  let (es, l) ← decListG decMpxRealEntry l
  pure (⟨es⟩, l)

/-- Encoding of message `ReadoutTrigger`. -/
def encReadoutTrigger (t : IqmPlaylist.ReadoutTrigger) : List Nat :=
  encNat t.probe_pulse_ref ++ encListG encNat t.acqusitions

/-- Decoder for `encReadoutTrigger`. -/
def decReadoutTrigger (l : List Nat) : Option (IqmPlaylist.ReadoutTrigger × List Nat) := do
  let (p, l) ← decNat l
  let (a, l) ← decListG decNat l
  pure (⟨p, a⟩, l)

/-- Encoding of message `ConditionalInstruction`. -/
def encConditionalInstruction (c : IqmPlaylist.ConditionalInstruction) : List Nat :=
  encString c.condition ++ encNat c.if_true ++ encNat c.if_false

/-- Decoder for `encConditionalInstruction`. -/
def decConditionalInstruction (l : List Nat) :
    Option (IqmPlaylist.ConditionalInstruction × List Nat) := do
  let (c, l) ← decString l
  let (t, l) ← decNat l
  let (f, l) ← decNat l
  pure (⟨c, t, f⟩, l)

/-- Encoding of the `operation` oneof of message `Instruction`; tags are the
protobuf field numbers 8–15. -/
def encOperation : IqmPlaylist.Operation → List Nat
  | .multiplexed_real_pulse p => 8 :: encMultiplexedRealPulse p
  | .multiplexed_iq_pulse p => 9 :: encMultiplexedIQPulse p
  | .wait => [10]
  | .real_pulse p => 11 :: encRealPulse p
  | .iq_pulse p => 12 :: encIQPulse p
  | .virtual_rz q => 13 :: encRat q
  | .conditional_instruction c => 14 :: encConditionalInstruction c
  | .readout_trigger t => 15 :: encReadoutTrigger t

/-- Decoder for `encOperation`; an unsupported variant tag decodes to `none`. -/
def decOperation : List Nat → Option (IqmPlaylist.Operation × List Nat)
  | 8 :: l => do
    let (p, l) ← decMultiplexedRealPulse l
    pure (.multiplexed_real_pulse p, l)
  | 9 :: l => do
    let (p, l) ← decMultiplexedIQPulse l
    pure (.multiplexed_iq_pulse p, l)
  | 10 :: l => some (.wait, l)
  | 11 :: l => do
    let (p, l) ← decRealPulse l
    pure (.real_pulse p, l)
  | 12 :: l => do
    let (p, l) ← decIQPulse l
    pure (.iq_pulse p, l)
  | 13 :: l => do
    let (q, l) ← decRat l
    pure (.virtual_rz q, l)
  | 14 :: l => do
    let (c, l) ← decConditionalInstruction l
    pure (.conditional_instruction c, l)
  | 15 :: l => do
    let (t, l) ← decReadoutTrigger l
    pure (.readout_trigger t, l)
  | _ => none

/-- Encoding of message `Instruction`. -/
def encInstruction (i : IqmPlaylist.Instruction) : List Nat :=
  encNat i.duration_samples ++ encOperation i.operation

/-- Decoder for `encInstruction`. -/
def decInstruction (l : List Nat) : Option (IqmPlaylist.Instruction × List Nat) := do
  let (d, l) ← decNat l
  let (op, l) ← decOperation l
  pure (⟨d, op⟩, l)

/-- Encoding of the `acquisition_type` oneof; tags are the protobuf field
numbers 11–13. -/
def encAcquisitionType : IqmPlaylist.AcquisitionType → List Nat
  | .timetrace d => 11 :: encNat d
  | .integration w => 12 :: encIQPulse w
  | .threshold_discrimination w t lbl => 13 :: (encIQPulse w ++ encRat t ++ encString lbl)

/-- Decoder for `encAcquisitionType`; an unsupported variant tag decodes to
`none`. -/
def decAcquisitionType : List Nat → Option (IqmPlaylist.AcquisitionType × List Nat)
  | 11 :: l => do
    let (d, l) ← decNat l
    pure (.timetrace d, l)
  | 12 :: l => do
    let (w, l) ← decIQPulse l
    pure (.integration w, l)
  | 13 :: l => do
    let (w, l) ← decIQPulse l
    let (t, l) ← decRat l
    let (lbl, l) ← decString l
    pure (.threshold_discrimination w t lbl, l)
  | _ => none

/-- Encoding of message `AcquisitionMethod`. -/
def encAcquisitionMethod (a : IqmPlaylist.AcquisitionMethod) : List Nat :=
  encString a.label ++ encNat a.delay_samples ++ encAcquisitionType a.acquisition_type

/-- Decoder for `encAcquisitionMethod`. -/
def decAcquisitionMethod (l : List Nat) :
    Option (IqmPlaylist.AcquisitionMethod × List Nat) := do
  let (lbl, l) ← decString l
  let (d, l) ← decNat l
  let (t, l) ← decAcquisitionType l
  pure (⟨lbl, d, t⟩, l)

/-- Encoding of message `ChannelConfiguration`; tags are the protobuf field
numbers 1–3 of the `extended` oneof. -/
def encChannelConfiguration : IqmPlaylist.ChannelConfiguration → List Nat
  | .iq_channel s => 1 :: encRat s
  | .real_channel s => 2 :: encRat s
  | .ro_channel s => 3 :: encRat s

/-- Decoder for `encChannelConfiguration`; an unsupported variant tag decodes
to `none`. -/
def decChannelConfiguration : List Nat → Option (IqmPlaylist.ChannelConfiguration × List Nat)
  | 1 :: l => do
    let (s, l) ← decRat l
    pure (.iq_channel s, l)
  | 2 :: l => do
    let (s, l) ← decRat l
    pure (.real_channel s, l)
  | 3 :: l => do
    let (s, l) ← decRat l
    pure (.ro_channel s, l)
  | _ => none

/-- Encoding of message `ChannelDescription`. -/
def encChannelDescription (c : IqmPlaylist.ChannelDescription) : List Nat :=
  encString c.controller_name ++ encChannelConfiguration c.channel_config ++
    encListG encInstruction c.instruction_table ++
    encListG encWaveform c.waveform_table ++
    encListG encAcquisitionMethod c.acquisition_table

/-- Decoder for `encChannelDescription`. -/
def decChannelDescription (l : List Nat) :
    Option (IqmPlaylist.ChannelDescription × List Nat) := do
  let (n, l) ← decString l
  let (cfg, l) ← decChannelConfiguration l
  let (it, l) ← decListG decInstruction l
  let (wt, l) ← decListG decWaveform l
  let (at_, l) ← decListG decAcquisitionMethod l
  pure (⟨n, cfg, it, wt, at_⟩, l)

/-- Encoding of message `Schedule.Channel`. -/
def encScheduleChannel (c : IqmPlaylist.ScheduleChannel) : List Nat :=
  encListG encNat c.instruction_refs

/-- Decoder for `encScheduleChannel`. -/
def decScheduleChannel (l : List Nat) :
    Option (IqmPlaylist.ScheduleChannel × List Nat) := do
  let (rs, l) ← decListG decNat l
  pure (⟨rs⟩, l)

/-- Encoding of one map entry of `Schedule.channels`. -/
def encScheduleEntry (e : String × IqmPlaylist.ScheduleChannel) : List Nat :=
  encString e.1 ++ encScheduleChannel e.2

/-- Decoder for `encScheduleEntry`. -/
def decScheduleEntry (l : List Nat) :
    Option ((String × IqmPlaylist.ScheduleChannel) × List Nat) := do
  let (n, l) ← decString l
  let (c, l) ← decScheduleChannel l
  pure ((n, c), l)

/-- Encoding of message `Schedule`. -/
def encSchedule (s : IqmPlaylist.Schedule) : List Nat :=
  encListG encScheduleEntry s.channels

/-- Decoder for `encSchedule`. -/
def decSchedule (l : List Nat) : Option (IqmPlaylist.Schedule × List Nat) := do
  let (cs, l) ← decListG decScheduleEntry l
  pure (⟨cs⟩, l)

/-- Encoding of one map entry of `Playlist.channels`. -/
def encChannelEntry (e : String × IqmPlaylist.ChannelDescription) : List Nat :=
  encString e.1 ++ encChannelDescription e.2

/-- Decoder for `encChannelEntry`. -/
def decChannelEntry (l : List Nat) :
    Option ((String × IqmPlaylist.ChannelDescription) × List Nat) := do
  let (n, l) ← decString l
  let (c, l) ← decChannelDescription l
  pure ((n, c), l)

/-- Encoding of the body of message `Playlist`. -/
def encPlaylist (p : IqmPlaylist.Playlist) : List Nat :=
  encListG encChannelEntry p.channels ++ encListG encSchedule p.schedules

/-- Decoder for `encPlaylist`. -/
def decPlaylist (l : List Nat) : Option (IqmPlaylist.Playlist × List Nat) := do
  let (cs, l) ← decListG decChannelEntry l
  let (ss, l) ← decListG decSchedule l
  pure (⟨cs, ss⟩, l)

/-- Version token of the wire format. -/
def wireVersion : Nat := 1

/-- Full wire encoding of a Playlist: a schema version token, a length prefix,
and the encoded body. -/
def encode (p : IqmPlaylist.Playlist) : List Nat :=
  let body := encPlaylist p
  wireVersion :: body.length :: body

/-- Full wire decoder: checks the schema version and the length prefix, then
decodes the body, requiring it to be consumed exactly; any violation aborts the
whole decode with `none`. -/
def decode : List Nat → Option IqmPlaylist.Playlist
  | v :: n :: r =>
    if v = wireVersion ∧ r.length = n then
      match decPlaylist r with
      | some (p, []) => some p
      | _ => none
    else none
  | _ => none

/-! ### Validator

Modelled from the spec: the repository sources contain only the protobuf
schema, so the Validator is modelled from the specification's referential and
structural checks (its §4.2 fixed check order), with one deliberate exception:
`setting.proto` itself states that the same `feedback_signal_label` may not be
used multiple times within the same `ReadoutTrigger` but may be reused in
different `ReadoutTriggers`, so feedback-label uniqueness is checked per
trigger, following the schema comment rather than the specification's
per-acquisition-table uniqueness. -/

/-- The three per-channel reference tables. -/
inductive TableKind where
  | instructionTable
  | waveformTable
  | acquisitionTable
  deriving DecidableEq

/-- Structural violation taxonomy of the validator.  Every error carries
enough location context (channel, table, index) to pinpoint the offending
entity. -/
inductive ValidationError where
  | unknownChannel (schedule_index : Nat) (channel : String)
  | crossChannelReference (channel : String) (table : TableKind) (index : Nat)
  | outOfRangeReference (channel : String) (table : TableKind) (index : Nat)
  | incompatibleInstructionForChannel (channel : String) (instruction_index : Nat)
  | multiplexingCycle (channel : String) (instruction_index : Nat)
  | conditionalCycle (channel : String) (instruction_index : Nat)
  | unresolvedFeedbackLabel (channel : String) (instruction_index : Nat) (condition : String)
  | duplicateFeedbackLabel (channel : String) (trigger_index : Nat) (label : String)
  | inconsistentWaveformLength (channel : String) (waveform_index : Nat)
  | mixedAcquisitionTypes (channel : String) (trigger_index : Nat)
  deriving DecidableEq

/-- Resolution of a channel name in the Playlist's channel map. -/
def lookupChannel (p : Playlist) (name : String) : Option ChannelDescription :=
  List.lookup name p.channels

/-- Check 1: every Schedule names only channels present in the Playlist's
channel map. -/
def checkChannelsKnown (p : Playlist) : Option ValidationError :=
  p.schedules.enum.findSome? fun se =>
    se.2.channels.findSome? fun e =>
      if (lookupChannel p e.1).isSome then none else some (.unknownChannel se.1 e.1)

/-- Check 2: every instruction index referenced from a Schedule resolves in
that channel's instruction table. -/
def checkScheduleRefs (p : Playlist) : Option ValidationError :=
  p.schedules.findSome? fun sched =>
    sched.channels.findSome? fun e =>
      match lookupChannel p e.1 with
      | none => none
      | some desc =>
        e.2.instruction_refs.findSome? fun r =>
          if r < desc.instruction_table.length then none
          else some (.outOfRangeReference e.1 .instructionTable r)

/-- Waveform indices referenced by an operation (including the inline pulses
of multiplexed entries). -/
def operationWaveformRefs : Operation → List Nat
  | .real_pulse p => [p.waveform_ref]
  | .iq_pulse p => [p.waveform_i_ref, p.waveform_q_ref]
  | .multiplexed_iq_pulse m =>
    m.entries.flatMap fun e =>
      match e.pulse with
      | .iq_pulse p => [p.waveform_i_ref, p.waveform_q_ref]
      | .instruction_ref _ => []
  | .multiplexed_real_pulse m =>
    m.entries.flatMap fun e =>
      match e.pulse with
      | .real_pulse p => [p.waveform_ref]
      | .instruction_ref _ => []
  | _ => []

/-- Declared sample count consistency of a waveform: an explicit sample list
must have exactly the declared number of samples. -/
def waveformConsistent (w : Waveform) : Bool :=
  match w.waveform_description with
  | .samples s => w.n_samples = s.length
  | _ => true

/-- Check 3: every waveform reference inside an instruction resolves in the
same channel's waveform table, and referenced waveforms have consistent
declared sample counts. -/
def checkWaveformRefs (p : Playlist) : Option ValidationError :=
  p.channels.findSome? fun ce =>
    ce.2.instruction_table.findSome? fun ins =>
      (operationWaveformRefs ins.operation).findSome? fun r =>
        match ce.2.waveform_table[r]? with
        | none => some (.outOfRangeReference ce.1 .waveformTable r)
        | some w =>
          if waveformConsistent w then none else some (.inconsistentWaveformLength ce.1 r)

/-- Instruction-kind-to-channel-kind compatibility: real pulses only on real
channels, IQ pulses on IQ or readout channels, readout triggers only on
readout channels; waits, virtual z rotations and conditionals are legal
everywhere. -/
def compatible : Operation → ChannelConfiguration → Bool
  | .wait, _ => true
  | .virtual_rz _, _ => true
  | .conditional_instruction _, _ => true
  | .real_pulse _, .real_channel _ => true
  | .real_pulse _, _ => false
  | .multiplexed_real_pulse _, .real_channel _ => true
  | .multiplexed_real_pulse _, _ => false
  | .iq_pulse _, .iq_channel _ => true
  | .iq_pulse _, .ro_channel _ => true
  | .iq_pulse _, _ => false
  | .multiplexed_iq_pulse _, .iq_channel _ => true
  | .multiplexed_iq_pulse _, .ro_channel _ => true
  | .multiplexed_iq_pulse _, _ => false
  | .readout_trigger _, .ro_channel _ => true
  | .readout_trigger _, _ => false

/-- Check 4: every instruction referenced from a Schedule is of a kind legal
for the owning channel's configuration. -/
def checkChannelCompat (p : Playlist) : Option ValidationError :=
  p.schedules.findSome? fun sched =>
    sched.channels.findSome? fun e =>
      match lookupChannel p e.1 with
      | none => none
      | some desc =>
        e.2.instruction_refs.findSome? fun r =>
          match desc.instruction_table[r]? with
          | none => none
          | some ins =>
            if compatible ins.operation desc.channel_config then none
            else some (.incompatibleInstructionForChannel e.1 r)

/-- Check 5: multiplexed pulse entries that reference another instruction must
reference an instruction of the matching non-multiplexed pulse kind; a
reference to anything else (in particular to the containing multiplexed
instruction itself) is a multiplexing cycle. -/
def checkMultiplexing (p : Playlist) : Option ValidationError :=
  p.channels.findSome? fun ce =>
    ce.2.instruction_table.enum.findSome? fun ie =>
      match ie.2.operation with
      | .multiplexed_iq_pulse m =>
        m.entries.findSome? fun e =>
          match e.pulse with
          | .instruction_ref r =>
            match ce.2.instruction_table[r]? with
            | none => some (.outOfRangeReference ce.1 .instructionTable r)
            | some tgt =>
              match tgt.operation with
              | .iq_pulse _ => none
              | _ => some (.multiplexingCycle ce.1 ie.1)
          | .iq_pulse _ => none
      | .multiplexed_real_pulse m =>
        m.entries.findSome? fun e =>
          match e.pulse with
          | .instruction_ref r =>
            match ce.2.instruction_table[r]? with
            | none => some (.outOfRangeReference ce.1 .instructionTable r)
            | some tgt =>
              match tgt.operation with
              | .real_pulse _ => none
              | _ => some (.multiplexingCycle ce.1 ie.1)
          | .real_pulse _ => none
      | _ => none

/-- Branch references of the instruction at index `j`, when it is a
conditional instruction. -/
def condSuccs (tbl : List Instruction) (j : Nat) : List Nat :=
  match tbl[j]? with
  | some ins =>
    match ins.operation with
    | .conditional_instruction c => [c.if_true, c.if_false]
    | _ => []
  | none => []

/-- Fuel-bounded reachability along conditional branch references: can `b` be
reached from `a` in at least one and at most `fuel` steps? -/
def reachesB (tbl : List Instruction) : Nat → Nat → Nat → Bool
  | 0, _, _ => false
  | fuel + 1, a, b => (condSuccs tbl a).any fun j => j == b || reachesB tbl fuel j b

/-- Check 6: conditional branch references resolve and do not form a cycle
back to the conditional.  A cycle through at most `tbl.length` distinct
conditionals suffices to witness any cycle, so the table length is used as
fuel. -/
def checkConditionals (p : Playlist) : Option ValidationError :=
  p.channels.findSome? fun ce =>
    ce.2.instruction_table.enum.findSome? fun ie =>
      match ie.2.operation with
      | .conditional_instruction c =>
        if ce.2.instruction_table.length ≤ c.if_true then
          some (.outOfRangeReference ce.1 .instructionTable c.if_true)
        else if ce.2.instruction_table.length ≤ c.if_false then
          some (.outOfRangeReference ce.1 .instructionTable c.if_false)
        else if reachesB ce.2.instruction_table ce.2.instruction_table.length ie.1 ie.1 then
          some (.conditionalCycle ce.1 ie.1)
        else none
      | _ => none

/-- One step along the logical conditional-branch reference graph: `b` is a
branch reference of the conditional instruction at index `a`. -/
def condStep (tbl : List Instruction) (a b : Nat) : Prop := b ∈ condSuccs tbl a

instance (tbl : List Instruction) (a b : Nat) : Decidable (condStep tbl a b) := by
  unfold condStep
  infer_instance

/-- Do both branch references of an operation, when it is a conditional,
resolve in the instruction table? -/
def condRefsOk (desc : ChannelDescription) : Operation → Bool
  | .conditional_instruction c =>
    decide (c.if_true < desc.instruction_table.length) &&
      decide (c.if_false < desc.instruction_table.length)
  | _ => true

/-- Every conditional branch reference of the Playlist resolves. -/
def condBranchesResolve (p : Playlist) : Prop :=
  ∀ ce ∈ p.channels, ∀ ins ∈ ce.2.instruction_table, condRefsOk ce.2 ins.operation = true

instance (p : Playlist) : Decidable (condBranchesResolve p) := by
  unfold condBranchesResolve
  infer_instance

/-- Is an operation a plain (non-multiplexed) IQ pulse? -/
def isIQPulseKind : Operation → Bool
  | .iq_pulse _ => true
  | _ => false

/-- Is an operation a plain (non-multiplexed) real pulse? -/
def isRealPulseKind : Operation → Bool
  | .real_pulse _ => true
  | _ => false

/-- Do all instruction references of an operation's multiplexed entries, when
it is a multiplexed pulse, resolve in the instruction table? -/
def mpxEntryRefsOk (desc : ChannelDescription) : Operation → Bool
  | .multiplexed_iq_pulse m =>
    m.entries.all fun e =>
      match e.pulse with
      | .instruction_ref r => decide (r < desc.instruction_table.length)
      | .iq_pulse _ => true
  | .multiplexed_real_pulse m =>
    m.entries.all fun e =>
      match e.pulse with
      | .instruction_ref r => decide (r < desc.instruction_table.length)
      | .real_pulse _ => true
  | _ => true

/-- Every multiplexed entry instruction reference of the Playlist resolves. -/
def mpxRefsResolve (p : Playlist) : Prop :=
  ∀ ce ∈ p.channels, ∀ ins ∈ ce.2.instruction_table, mpxEntryRefsOk ce.2 ins.operation = true

instance (p : Playlist) : Decidable (mpxRefsResolve p) := by
  unfold mpxRefsResolve
  infer_instance

/-- A multiplexed entry of the instruction at `ie` references (in range) an
instruction that is not of the matching non-multiplexed pulse kind — in
particular, any reference back to the containing multiplexed instruction
itself is of this form. -/
def badMpxEntry (desc : ChannelDescription) (ie : Nat × Instruction) : Prop :=
  (∃ m, ie.2.operation = .multiplexed_iq_pulse m ∧
    ∃ en ∈ m.entries, ∃ r tgt, en.pulse = .instruction_ref r ∧
      desc.instruction_table[r]? = some tgt ∧ isIQPulseKind tgt.operation = false) ∨
  (∃ m, ie.2.operation = .multiplexed_real_pulse m ∧
    ∃ en ∈ m.entries, ∃ r tgt, en.pulse = .instruction_ref r ∧
      desc.instruction_table[r]? = some tgt ∧ isRealPulseKind tgt.operation = false)

/-- Non-empty feedback signal label declared by an acquisition, if any
(an empty `feedback_signal_label` means the signal is not routed anywhere). -/
def acqFeedbackLabel : AcquisitionType → Option String
  | .threshold_discrimination _ _ lbl => if lbl = "" then none else some lbl
  | _ => none

/-- Is an acquisition a raw time trace? -/
def isTimetrace (a : AcquisitionMethod) : Bool :=
  match a.acquisition_type with
  | .timetrace _ => true
  | _ => false

/-- Is an acquisition a threshold state discrimination? -/
def isThreshold (a : AcquisitionMethod) : Bool :=
  match a.acquisition_type with
  | .threshold_discrimination _ _ _ => true
  | _ => false

/-- Non-empty feedback labels of the acquisitions referenced by one readout
trigger, in reference order. -/
def triggerLabels (desc : ChannelDescription) (refs : List Nat) : List String :=
  refs.flatMap fun r =>
    match desc.acquisition_table[r]? with
    | some a => (acqFeedbackLabel a.acquisition_type).toList
    | none => []

/-- First element occurring twice in a list, if any. -/
def firstDup : List String → Option String
  | [] => none
  | x :: xs => if x ∈ xs then some x else firstDup xs

/-- Acquisitions referenced by one readout trigger, in reference order. -/
def triggerAcqs (desc : ChannelDescription) (t : ReadoutTrigger) : List AcquisitionMethod :=
  t.acqusitions.filterMap fun r => desc.acquisition_table[r]?

/-- Check 7: readout trigger probe and acquisition references resolve, the
per-trigger acquisition mixing policy of the schema holds (at most one time
trace, no mixing of time traces with state discrimination), and the same
feedback label is not used multiple times within the same trigger. -/
def checkReadoutTriggers (p : Playlist) : Option ValidationError :=
  p.channels.findSome? fun ce =>
    ce.2.instruction_table.enum.findSome? fun ie =>
      match ie.2.operation with
      | .readout_trigger t =>
        if ce.2.instruction_table.length ≤ t.probe_pulse_ref then
          some (.outOfRangeReference ce.1 .instructionTable t.probe_pulse_ref)
        else
          match t.acqusitions.findSome? fun r =>
              if r < ce.2.acquisition_table.length then none
              else some (ValidationError.outOfRangeReference ce.1 .acquisitionTable r) with
          | some e => some e
          | none =>
            if 2 ≤ ((triggerAcqs ce.2 t).filter isTimetrace).length then
              some (.mixedAcquisitionTypes ce.1 ie.1)
            else if (triggerAcqs ce.2 t).any isTimetrace && (triggerAcqs ce.2 t).any isThreshold then
              some (.mixedAcquisitionTypes ce.1 ie.1)
            else
              match firstDup (triggerLabels ce.2 t.acqusitions) with
              | some lbl => some (.duplicateFeedbackLabel ce.1 ie.1 lbl)
              | none => none
      | _ => none

/-- Does one operation, when it is a readout trigger, satisfy the per-trigger
policies checked after reference resolution: probe reference in range, at most
one time trace, no mixing of time traces with state discrimination, no
feedback label used twice within the trigger? -/
def triggerPolicyOk (desc : ChannelDescription) : Operation → Bool
  | .readout_trigger t =>
    decide (t.probe_pulse_ref < desc.instruction_table.length) &&
      (decide (((triggerAcqs desc t).filter isTimetrace).length < 2) &&
        (!((triggerAcqs desc t).any isTimetrace && (triggerAcqs desc t).any isThreshold) &&
          (firstDup (triggerLabels desc t.acqusitions)).isNone))
  | _ => true

/-- Every readout trigger of the Playlist satisfies the per-trigger policies
(so the only violations check 7 can report are unresolvable references). -/
def triggerPoliciesOk (p : Playlist) : Prop :=
  ∀ ce ∈ p.channels, ∀ ins ∈ ce.2.instruction_table, triggerPolicyOk ce.2 ins.operation = true

instance (p : Playlist) : Decidable (triggerPoliciesOk p) := by
  unfold triggerPoliciesOk
  infer_instance

/-- All non-empty feedback signal labels declared anywhere in the Playlist
(feedback routing is global: conditionals may consume labels produced on other
channels). -/
def declaredFeedbackLabels (p : Playlist) : List String :=
  p.channels.flatMap fun ce =>
    ce.2.acquisition_table.flatMap fun a => (acqFeedbackLabel a.acquisition_type).toList

/-- Does the condition label of an operation, when it is a conditional,
match a declared feedback signal label of the Playlist? -/
def condLabelOk (p : Playlist) : Operation → Bool
  | .conditional_instruction c => decide (c.condition ∈ declaredFeedbackLabels p)
  | _ => true

/-- Every conditional condition label of the Playlist is declared by at least
one threshold state discrimination somewhere in the Playlist. -/
def condLabelsResolve (p : Playlist) : Prop :=
  ∀ ce ∈ p.channels, ∀ ins ∈ ce.2.instruction_table, condLabelOk p ins.operation = true

instance (p : Playlist) : Decidable (condLabelsResolve p) := by
  unfold condLabelsResolve
  infer_instance

/-- Check 8: every conditional instruction's condition label matches a
declared feedback signal label somewhere in the Playlist. -/
def checkFeedbackConditions (p : Playlist) : Option ValidationError :=
  p.channels.findSome? fun ce =>
    ce.2.instruction_table.enum.findSome? fun ie =>
      match ie.2.operation with
      | .conditional_instruction c =>
        if c.condition ∈ declaredFeedbackLabels p then none
        else some (.unresolvedFeedbackLabel ce.1 ie.1 c.condition)
      | _ => none

/-- The validator's checks in the fixed order of the specification. -/
def checks (p : Playlist) : List (Option ValidationError) :=
  [checkChannelsKnown p, checkScheduleRefs p, checkWaveformRefs p,
   checkChannelCompat p, checkMultiplexing p, checkConditionals p,
   checkReadoutTriggers p, checkFeedbackConditions p]

/-- First populated result in a list of optional results. -/
def firstSome : List (Option α) → Option α
  | [] => none
  | none :: t => firstSome t
  | some e :: _ => some e

/-- The validator: accept, or surface the first violation found by the fixed
check order. -/
def validate (p : Playlist) : Except ValidationError Unit :=
  match firstSome (checks p) with
  | some e => .error e
  | none => .ok ()

/-! ### Executor

Modelled from the spec: per-channel sample streams are produced by walking
each Schedule's channels in listed order.  Pulse sample synthesis itself
(waveform evaluation, IQ modulation) is analog mathematics outside the IR and
is abstracted as an oracle `ExecSem`; the timing, truncation, superposition
and padding structure is modelled exactly, following the comments of
`setting.proto` (multiplexed pulses: entries truncated to the instruction's
window, summed where overlapping, zero where uncovered; `Wait`: equivalent to
playing zero-valued samples) and the specification's Schedule barrier. -/

/-- Oracle giving the sample stream a pulse synthesizes; the stream's length
is the pulse's own extent. -/
structure ExecSem where
  iqSem : IQPulse → List ℚ
  realSem : RealPulse → List ℚ

/-- Zero-valued samples (silence). -/
def silence (n : Nat) : List ℚ := List.replicate n 0

/-- Playback policy fitting a stream to an instruction's duration: truncate
past the duration, pad with zeros when shorter. -/
def fitTo (d : Nat) (s : List ℚ) : List ℚ := (List.range d).map fun t => s.getD t 0

/-- Sample stream of one multiplexed-IQ entry: an inline pulse plays its own
samples, an instruction reference plays the referenced pulse instruction
fitted to that instruction's duration; a reference that does not resolve to an
IQ pulse contributes nothing. -/
def entryIQSamples (sem : ExecSem) (tbl : List Instruction) (e : MpxIQEntry) : List ℚ :=
  match e.pulse with
  | .iq_pulse p => sem.iqSem p
  | .instruction_ref r =>
    match tbl[r]? with
    | some ins =>
      match ins.operation with
      | .iq_pulse p => fitTo ins.duration_samples (sem.iqSem p)
      | _ => []
    | none => []

/-- Sample stream of one multiplexed-real entry. -/
def entryRealSamples (sem : ExecSem) (tbl : List Instruction) (e : MpxRealEntry) : List ℚ :=
  match e.pulse with
  | .real_pulse p => sem.realSem p
  | .instruction_ref r =>
    match tbl[r]? with
    | some ins =>
      match ins.operation with
      | .real_pulse p => fitTo ins.duration_samples (sem.realSem p)
      | _ => []
    | none => []

/-- Contribution of a component stream `s`, shifted by `offset` samples, to
output sample position `t`: samples falling before position 0 or past the end
of `s` are dropped, not wrapped or clamped. -/
def contribAt (offset : Int) (s : List ℚ) (t : Nat) : ℚ :=
  let j : Int := (t : Int) - offset
  if 0 ≤ j then s.getD j.toNat 0 else 0

/-- Execution of a `MultiplexedIQPulse` over the window `[0, d)`: each entry
contributes its samples shifted by its offset, overlapping contributions are
summed, uncovered positions are zero. -/
def mpxIQOutput (sem : ExecSem) (tbl : List Instruction)
    (entries : List MpxIQEntry) (d : Nat) : List ℚ :=
  (List.range d).map fun t =>
    entries.foldl (fun acc e => acc + contribAt e.offset_samples (entryIQSamples sem tbl e) t) 0

/-- Execution of a `MultiplexedRealPulse` over the window `[0, d)`. -/
def mpxRealOutput (sem : ExecSem) (tbl : List Instruction)
    (entries : List MpxRealEntry) (d : Nat) : List ℚ :=
  (List.range d).map fun t =>
    entries.foldl (fun acc e => acc + contribAt e.offset_samples (entryRealSamples sem tbl e) t) 0

/-- Output samples of one instruction; always exactly `duration_samples`
samples.  A conditional's runtime branch choice has no sample semantics in the
schema and is modelled as silence in its window; a readout trigger plays its
probe pulse. -/
def instrOutput (sem : ExecSem) (tbl : List Instruction) (ins : Instruction) : List ℚ :=
  match ins.operation with
  | .wait => silence ins.duration_samples
  | .virtual_rz _ => silence ins.duration_samples
  | .conditional_instruction _ => silence ins.duration_samples
  | .real_pulse p => fitTo ins.duration_samples (sem.realSem p)
  | .iq_pulse p => fitTo ins.duration_samples (sem.iqSem p)
  | .multiplexed_iq_pulse m => mpxIQOutput sem tbl m.entries ins.duration_samples
  | .multiplexed_real_pulse m => mpxRealOutput sem tbl m.entries ins.duration_samples
  | .readout_trigger t =>
    match tbl[t.probe_pulse_ref]? with
    | some probe =>
      match probe.operation with
      | .iq_pulse p => fitTo ins.duration_samples (fitTo probe.duration_samples (sem.iqSem p))
      | _ => silence ins.duration_samples
    | none => silence ins.duration_samples

/-- Duration contributed by one schedule reference (an unresolvable reference
contributes nothing; the validator rejects such playlists anyway). -/
def refDuration (tbl : List Instruction) (r : Nat) : Nat :=
  match tbl[r]? with
  | some ins => ins.duration_samples
  | none => 0

/-- Total duration of one channel's instruction list in a Schedule. -/
def channelSum (tbl : List Instruction) (refs : List Nat) : Nat :=
  (refs.map (refDuration tbl)).sum

/-- Instruction table of a named channel. -/
def tableOf (p : Playlist) (name : String) : List Instruction :=
  match lookupChannel p name with
  | some d => d.instruction_table
  | none => []

/-- Duration of a Schedule: the maximum, over its channels, of the sum of the
channel's instruction durations (the hard barrier). -/
def scheduleDuration (p : Playlist) (sched : Schedule) : Nat :=
  sched.channels.foldl (fun acc e => max acc (channelSum (tableOf p e.1) e.2.instruction_refs)) 0

/-- Back-to-back concatenation of one channel's instruction outputs. -/
def channelCore (sem : ExecSem) (tbl : List Instruction) (refs : List Nat) : List ℚ :=
  (refs.map fun r =>
    match tbl[r]? with
    | some ins => instrOutput sem tbl ins
    | none => []).flatten

/-- Full output stream of one channel within a Schedule: its instructions
back to back, implicitly padded with silence up to the Schedule barrier. -/
def channelStream (sem : ExecSem) (p : Playlist) (sched : Schedule)
    (e : String × ScheduleChannel) : List ℚ :=
  let core := channelCore sem (tableOf p e.1) e.2.instruction_refs
  core ++ silence (scheduleDuration p sched - core.length)

/-! ### Acquisition integration

Modelled from the spec and the comments of `setting.proto`: for
`ComplexIntegration` and `ThresholdStateDiscrimination` the total integration
window is the maximum length of all integration weights, and a weights vector
shorter than the window is padded with zeros.  The raw IQ signal is abstracted
as a pair of sample oracles. -/

/-- Total integration window of a pair of weight vectors. -/
def integrationWindow (wI wQ : List ℚ) : Nat := max wI.length wQ.length

/-- Zero-padding of a weights vector to the window length. -/
def padTo (n : Nat) (w : List ℚ) : List ℚ := w ++ List.replicate (n - w.length) 0

/-- Weighted integration of the raw IQ signal over the integration window,
with complex weights `wI + i wQ`, resulting in a complex number represented as
a pair of rationals. -/
def integrationResult (sigI sigQ : Nat → ℚ) (wI wQ : List ℚ) : ℚ × ℚ :=
  let n := integrationWindow wI wQ
  let wi := padTo n wI
  let wq := padTo n wQ
  (((List.range n).map fun t => sigI t * wi.getD t 0 - sigQ t * wq.getD t 0).sum,
   ((List.range n).map fun t => sigI t * wq.getD t 0 + sigQ t * wi.getD t 0).sum)

/-- Integration weights of an acquisition, if it performs a weighted
integration. -/
def acqWeights : AcquisitionType → Option IQPulse
  | .integration w => some w
  | .threshold_discrimination w _ _ => some w
  | .timetrace _ => none

/-- Weight vector referenced by a waveform index, under a waveform sample
oracle. -/
def resolveWeightVector (wfSem : Waveform → List ℚ) (desc : ChannelDescription)
    (r : Nat) : List ℚ :=
  match desc.waveform_table[r]? with
  | some w => wfSem w
  | none => []

/-- Total integration window of an acquisition: for weighted integrations the
maximum length of the I and Q integration weight waveforms, for a time trace
its own capture duration. -/
def acqIntegrationWindow (wfSem : Waveform → List ℚ) (desc : ChannelDescription) :
    AcquisitionType → Nat
  | .integration w =>
    integrationWindow (resolveWeightVector wfSem desc w.waveform_i_ref)
      (resolveWeightVector wfSem desc w.waveform_q_ref)
  | .threshold_discrimination w _ _ =>
    integrationWindow (resolveWeightVector wfSem desc w.waveform_i_ref)
      (resolveWeightVector wfSem desc w.waveform_q_ref)
  | .timetrace d => d

/-! ### Concrete example playlists used to instantiate the general theorems. -/

instance [DecidableEq ε] [DecidableEq α] : DecidableEq (Except ε α) := fun a b =>
  match a, b with
  | .error x, .error y =>
    if h : x = y then .isTrue (congrArg Except.error h)
    else .isFalse fun c => h (Except.error.inj c)
  | .ok x, .ok y =>
    if h : x = y then .isTrue (congrArg Except.ok h)
    else .isFalse fun c => h (Except.ok.inj c)
  | .error _, .ok _ => .isFalse fun c => Except.noConfusion c
  | .ok _, .error _ => .isFalse fun c => Except.noConfusion c

/-- An IQ pulse with all-zero parameters. -/
def zeroIQPulse : IQPulse := ⟨0, 0, 0, 0, 0, 0, 0⟩

/-- Channel and label names used by the examples. -/
def chA : String := "a"

/-- Second example channel name. -/
def chB : String := "b"

/-- Third example channel name. -/
def chC : String := "c"

/-- Example IQ drive channel name. -/
def chQ : String := "q"

/-- Example readout channel name. -/
def chR : String := "ro"

/-- Example controller name. -/
def ctrl : String := "awg-1"

/-- Example feedback label. -/
def lblX : String := "X"

/-- A second feedback label, declared nowhere. -/
def lblY : String := "Y"

/-- Threshold state discrimination declaring feedback label `lblX`. -/
def tsdX : AcquisitionMethod := ⟨"res0", 0, .threshold_discrimination zeroIQPulse 0 lblX⟩

/-- A second threshold state discrimination declaring the same label. -/
def tsdX2 : AcquisitionMethod := ⟨"res1", 0, .threshold_discrimination zeroIQPulse 0 lblX⟩

/-- A fully valid playlist: one IQ channel, a wait and an IQ pulse, one
schedule. -/
def exGood : Playlist :=
  { channels := [(chQ,
      { controller_name := ctrl
        channel_config := .iq_channel 1
        instruction_table := [⟨5, .wait⟩, ⟨3, .iq_pulse ⟨0, 1, 1, 1, 0, 0, 0⟩⟩]
        waveform_table := [⟨2, .constant⟩, ⟨2, .samples [1, 1]⟩]
        acquisition_table := [] })]
    schedules := [⟨[(chQ, ⟨[0, 1]⟩)]⟩] }

/-- Two-channel schedule-barrier playlist: channel `a` waits 100 samples,
channel `b` waits 60. -/
def exBarrier : Playlist :=
  { channels :=
      [(chA, { controller_name := ctrl
               channel_config := .real_channel 1
               instruction_table := [⟨100, .wait⟩]
               waveform_table := []
               acquisition_table := [] }),
       (chB, { controller_name := ctrl
               channel_config := .real_channel 1
               instruction_table := [⟨60, .wait⟩]
               waveform_table := []
               acquisition_table := [] })]
    schedules := [⟨[(chA, ⟨[0]⟩), (chB, ⟨[0]⟩)]⟩] }

/-- A playlist whose only schedule references instruction index 3 in a
one-instruction table. -/
def exDanglingInstr : Playlist :=
  { channels := [(chA, { controller_name := ctrl
                         channel_config := .real_channel 1
                         instruction_table := [⟨1, .wait⟩]
                         waveform_table := []
                         acquisition_table := [] })]
    schedules := [⟨[(chA, ⟨[3]⟩)]⟩] }

/-- A playlist with a real pulse referencing waveform index 5 in an empty
waveform table. -/
def exDanglingWf : Playlist :=
  { channels := [(chA, { controller_name := ctrl
                         channel_config := .real_channel 1
                         instruction_table := [⟨2, .real_pulse ⟨5, 1⟩⟩]
                         waveform_table := []
                         acquisition_table := [] })]
    schedules := [⟨[(chA, ⟨[0]⟩)]⟩] }

/-- A playlist with a readout trigger referencing acquisition index 3 in an
empty acquisition table. -/
def exDanglingAcq : Playlist :=
  { channels := [(chR, { controller_name := ctrl
                         channel_config := .ro_channel 1
                         instruction_table := [⟨4, .readout_trigger ⟨0, [3]⟩⟩]
                         waveform_table := []
                         acquisition_table := [] })]
    schedules := [] }

/-- Two readout triggers, each referencing a distinct threshold
discrimination, both declaring the same feedback label `lblX`, plus a
conditional consuming that label. -/
def exDupAcross : Playlist :=
  { channels := [(chR, { controller_name := ctrl
                         channel_config := .ro_channel 1
                         instruction_table :=
                           [⟨4, .readout_trigger ⟨1, [0]⟩⟩,
                            ⟨4, .readout_trigger ⟨0, [1]⟩⟩,
                            ⟨1, .conditional_instruction ⟨lblX, 0, 1⟩⟩]
                         waveform_table := []
                         acquisition_table := [tsdX, tsdX2] })]
    schedules := [] }

/-- One readout trigger referencing two threshold discriminations that declare
the same feedback label. -/
def exDupSame : Playlist :=
  { channels := [(chR, { controller_name := ctrl
                         channel_config := .ro_channel 1
                         instruction_table := [⟨4, .readout_trigger ⟨0, [0, 1]⟩⟩]
                         waveform_table := []
                         acquisition_table := [tsdX, tsdX2] })]
    schedules := [] }

/-- A conditional instruction whose condition label `lblY` is declared by no
acquisition. -/
def exUnresolved : Playlist :=
  { channels := [(chQ, { controller_name := ctrl
                         channel_config := .iq_channel 1
                         instruction_table :=
                           [⟨1, .wait⟩, ⟨1, .wait⟩,
                            ⟨1, .conditional_instruction ⟨lblY, 0, 1⟩⟩]
                         waveform_table := []
                         acquisition_table := [] })]
    schedules := [] }

/-- A conditional instruction whose true branch references the conditional
itself. -/
def exCondCycle : Playlist :=
  { channels := [(chC, { controller_name := ctrl
                         channel_config := .iq_channel 1
                         instruction_table :=
                           [⟨1, .conditional_instruction ⟨lblX, 0, 1⟩⟩, ⟨1, .wait⟩]
                         waveform_table := []
                         acquisition_table := [] })]
    schedules := [] }

/-- A multiplexed IQ pulse whose entry references its own containing
instruction. -/
def exMpxSelf : Playlist :=
  { channels := [(chQ, { controller_name := ctrl
                         channel_config := .iq_channel 1
                         instruction_table :=
                           [⟨4, .multiplexed_iq_pulse ⟨[⟨0, .instruction_ref 0⟩]⟩⟩]
                         waveform_table := []
                         acquisition_table := [] })]
    schedules := [] }

/-- Acyclically nested conditionals (the branch of one conditional is another
conditional), with the consumed feedback label declared on another channel. -/
def exNested : Playlist :=
  { channels :=
      [(chR, { controller_name := ctrl
               channel_config := .ro_channel 1
               instruction_table := []
               waveform_table := []
               acquisition_table := [tsdX] }),
       (chQ, { controller_name := ctrl
               channel_config := .iq_channel 1
               instruction_table :=
                 [⟨1, .wait⟩, ⟨1, .wait⟩,
                  ⟨1, .conditional_instruction ⟨lblX, 0, 1⟩⟩,
                  ⟨1, .conditional_instruction ⟨lblX, 2, 0⟩⟩]
               waveform_table := []
               acquisition_table := [] })]
    schedules := [⟨[(chQ, ⟨[3]⟩)]⟩] }

/-- Description of a real channel carrying an IQ pulse instruction. -/
def exIncompatIQDesc : ChannelDescription :=
  { controller_name := ctrl
    channel_config := .real_channel 1
    instruction_table := [⟨3, .iq_pulse ⟨0, 1, 1, 1, 0, 0, 0⟩⟩]
    waveform_table := [⟨2, .constant⟩, ⟨2, .constant⟩]
    acquisition_table := [] }

/-- An IQ pulse instruction scheduled on a channel configured as real. -/
def exIncompatIQ : Playlist :=
  { channels := [(chA, exIncompatIQDesc)]
    schedules := [⟨[(chA, ⟨[0]⟩)]⟩] }

/-- Description of an IQ channel carrying a readout trigger instruction. -/
def exIncompatTrigDesc : ChannelDescription :=
  { controller_name := ctrl
    channel_config := .iq_channel 1
    instruction_table := [⟨3, .readout_trigger ⟨0, []⟩⟩]
    waveform_table := []
    acquisition_table := [] }

/-- A readout trigger scheduled on a channel configured as IQ (not readout). -/
def exIncompatTrig : Playlist :=
  { channels := [(chQ, exIncompatTrigDesc)]
    schedules := [⟨[(chQ, ⟨[0]⟩)]⟩] }

/-- Execution oracle playing four unit samples for every pulse. -/
def exSem : ExecSem := ⟨fun _ => List.replicate 4 1, fun _ => List.replicate 4 1⟩

/-- Execution oracle playing nothing for every pulse. -/
def exSemZero : ExecSem := ⟨fun _ => [], fun _ => []⟩

/-! ## Theorems -/

/-! ### Codec round-trip lemmas -/

@[simp] theorem decNat_enc (n : Nat) (r : List Nat) : decNat (encNat n ++ r) = some (n, r) := rfl

@[simp] theorem decInt_enc (i : Int) (r : List Nat) : decInt (encInt i ++ r) = some (i, r) := by
  by_cases h : i < 0
  · simp only [encInt, if_pos h]
    show some (-(i.natAbs : Int), r) = some (i, r)
    rw [Int.ofNat_natAbs_of_nonpos (le_of_lt h)]
    simp
  · simp only [encInt, if_neg h]
    show some ((i.natAbs : Int), r) = some (i, r)
    rw [Int.natAbs_of_nonneg (le_of_not_lt h)]

@[simp] theorem decRat_enc (q : ℚ) (r : List Nat) : decRat (encRat q ++ r) = some (q, r) := by
  simp only [encRat, List.append_assoc, decRat, decInt_enc, List.cons_append, List.nil_append]
  show (do
    let (d, l) ← decNat (encNat q.den ++ r)
    pure ((q.num : ℚ) / (d : ℚ), l)) = some (q, r)
  simp [Rat.num_div_den]

@[simp] theorem decChar_enc (c : Char) (r : List Nat) :
    decChar (encChar c ++ r) = some (c, r) := by
  show some (Char.ofNat c.toNat, r) = some (c, r)
  rw [Char.ofNat_toNat]

theorem decListG_enc (f : α → List Nat) (g : List Nat → Option (α × List Nat))
    (hg : ∀ x r, g (f x ++ r) = some (x, r)) (xs : List α) (r : List Nat) :
    decListG g (encListG f xs ++ r) = some (xs, r) := by
  have key : ∀ (xs : List α) (r : List Nat),
      decListN g xs.length (xs.flatMap f ++ r) = some (xs, r) := by
    intro xs
    induction xs with
    | nil => intro r; simp [decListN]
    | cons x t ih =>
      intro r
      simp only [List.flatMap_cons, List.length_cons, decListN, List.append_assoc, hg]
      show (do
        let (xs, l) ← decListN g t.length (t.flatMap f ++ r)
        pure (x :: xs, l)) = some (x :: t, r)
      rw [ih r]
      rfl
  simp only [encListG, List.cons_append, decListG]
  show (do decListN g xs.length (xs.flatMap f ++ r) : Option (List α × List Nat)) = some (xs, r)
  rw [key]

@[simp] theorem decListRat_enc (xs : List ℚ) (r : List Nat) :
    decListG decRat (encListG encRat xs ++ r) = some (xs, r) :=
  decListG_enc encRat decRat decRat_enc xs r

@[simp] theorem decString_enc (s : String) (r : List Nat) :
    decString (encString s ++ r) = some (s, r) := by
  simp only [encString, decString, decListG_enc encChar decChar decChar_enc]
  rfl

set_option maxHeartbeats 1000000 in
@[simp] theorem decWaveformDesc_enc (d : WaveformDesc) (r : List Nat) :
    decWaveformDesc (encWaveformDesc d ++ r) = some (d, r) := by
  cases d <;> simp [encWaveformDesc, decWaveformDesc, List.append_assoc]

@[simp] theorem decWaveform_enc (w : Waveform) (r : List Nat) :
    decWaveform (encWaveform w ++ r) = some (w, r) := by
  simp [encWaveform, decWaveform, List.append_assoc]

@[simp] theorem decRealPulse_enc (p : RealPulse) (r : List Nat) :
    decRealPulse (encRealPulse p ++ r) = some (p, r) := by
  simp [encRealPulse, decRealPulse, List.append_assoc]

@[simp] theorem decIQPulse_enc (p : IQPulse) (r : List Nat) :
    decIQPulse (encIQPulse p ++ r) = some (p, r) := by
  simp [encIQPulse, decIQPulse, List.append_assoc]

@[simp] theorem decMpxIQEntry_enc (e : MpxIQEntry) (r : List Nat) :
    decMpxIQEntry (encMpxIQEntry e ++ r) = some (e, r) := by
  obtain ⟨off, pulse⟩ := e
  cases pulse <;> simp [encMpxIQEntry, decMpxIQEntry, List.append_assoc]

@[simp] theorem decMultiplexedIQPulse_enc (m : MultiplexedIQPulse) (r : List Nat) :
    decMultiplexedIQPulse (encMultiplexedIQPulse m ++ r) = some (m, r) := by
  simp [encMultiplexedIQPulse, decMultiplexedIQPulse,
    decListG_enc encMpxIQEntry decMpxIQEntry decMpxIQEntry_enc]

@[simp] theorem decMpxRealEntry_enc (e : MpxRealEntry) (r : List Nat) :
    decMpxRealEntry (encMpxRealEntry e ++ r) = some (e, r) := by
  obtain ⟨off, pulse⟩ := e
  cases pulse <;> simp [encMpxRealEntry, decMpxRealEntry, List.append_assoc]

@[simp] theorem decMultiplexedRealPulse_enc (m : MultiplexedRealPulse) (r : List Nat) :
    decMultiplexedRealPulse (encMultiplexedRealPulse m ++ r) = some (m, r) := by
  simp [encMultiplexedRealPulse, decMultiplexedRealPulse,
    decListG_enc encMpxRealEntry decMpxRealEntry decMpxRealEntry_enc]

@[simp] theorem decListNat_enc (xs : List Nat) (r : List Nat) :
    decListG decNat (encListG encNat xs ++ r) = some (xs, r) :=
  decListG_enc encNat decNat decNat_enc xs r

@[simp] theorem decReadoutTrigger_enc (t : ReadoutTrigger) (r : List Nat) :
    decReadoutTrigger (encReadoutTrigger t ++ r) = some (t, r) := by
  simp [encReadoutTrigger, decReadoutTrigger, List.append_assoc]

@[simp] theorem decConditionalInstruction_enc (c : ConditionalInstruction) (r : List Nat) :
    decConditionalInstruction (encConditionalInstruction c ++ r) = some (c, r) := by
  simp [encConditionalInstruction, decConditionalInstruction, List.append_assoc]

@[simp] theorem decOperation_enc (op : Operation) (r : List Nat) :
    decOperation (encOperation op ++ r) = some (op, r) := by
  cases op <;> simp [encOperation, decOperation, List.append_assoc]

@[simp] theorem decInstruction_enc (i : Instruction) (r : List Nat) :
    decInstruction (encInstruction i ++ r) = some (i, r) := by
  simp [encInstruction, decInstruction, List.append_assoc]

@[simp] theorem decAcquisitionType_enc (a : AcquisitionType) (r : List Nat) :
    decAcquisitionType (encAcquisitionType a ++ r) = some (a, r) := by
  cases a <;> simp [encAcquisitionType, decAcquisitionType, List.append_assoc]

@[simp] theorem decAcquisitionMethod_enc (a : AcquisitionMethod) (r : List Nat) :
    decAcquisitionMethod (encAcquisitionMethod a ++ r) = some (a, r) := by
  simp [encAcquisitionMethod, decAcquisitionMethod, List.append_assoc]

@[simp] theorem decChannelConfiguration_enc (c : ChannelConfiguration) (r : List Nat) :
    decChannelConfiguration (encChannelConfiguration c ++ r) = some (c, r) := by
  cases c <;> simp [encChannelConfiguration, decChannelConfiguration, List.append_assoc]

@[simp] theorem decChannelDescription_enc (c : ChannelDescription) (r : List Nat) :
    decChannelDescription (encChannelDescription c ++ r) = some (c, r) := by
  simp [encChannelDescription, decChannelDescription, List.append_assoc,
    decListG_enc encInstruction decInstruction decInstruction_enc,
    decListG_enc encWaveform decWaveform decWaveform_enc,
    decListG_enc encAcquisitionMethod decAcquisitionMethod decAcquisitionMethod_enc]

@[simp] theorem decScheduleChannel_enc (c : ScheduleChannel) (r : List Nat) :
    decScheduleChannel (encScheduleChannel c ++ r) = some (c, r) := by
  simp [encScheduleChannel, decScheduleChannel]

@[simp] theorem decScheduleEntry_enc (e : String × ScheduleChannel) (r : List Nat) :
    decScheduleEntry (encScheduleEntry e ++ r) = some (e, r) := by
  simp [encScheduleEntry, decScheduleEntry, List.append_assoc]

@[simp] theorem decSchedule_enc (s : Schedule) (r : List Nat) :
    decSchedule (encSchedule s ++ r) = some (s, r) := by
  simp [encSchedule, decSchedule,
    decListG_enc encScheduleEntry decScheduleEntry decScheduleEntry_enc]

@[simp] theorem decChannelEntry_enc (e : String × ChannelDescription) (r : List Nat) :
    decChannelEntry (encChannelEntry e ++ r) = some (e, r) := by
  simp [encChannelEntry, decChannelEntry, List.append_assoc]

@[simp] theorem decPlaylist_enc (p : Playlist) (r : List Nat) :
    decPlaylist (encPlaylist p ++ r) = some (p, r) := by
  simp [encPlaylist, decPlaylist, List.append_assoc,
    decListG_enc encChannelEntry decChannelEntry decChannelEntry_enc,
    decListG_enc encSchedule decSchedule decSchedule_enc]

/-- C1: for every Playlist value, decoding the wire encoding of that Playlist
yields a Playlist equal to the original: `decode (encode p) = some p`. -/
theorem C1_decode_encode_roundtrip (p : Playlist) : decode (encode p) = some p := by
  have h := decPlaylist_enc p []
  rw [List.append_nil] at h
  simp [encode, decode, h]

/-! ### Validator structure lemmas -/

theorem findSome?_mem {α β : Type _} {f : α → Option β} {l : List α} {b : β}
    (h : l.findSome? f = some b) : ∃ a ∈ l, f a = some b := by
  obtain ⟨l1, a, l2, rfl, ha, -⟩ := List.findSome?_eq_some_iff.mp h
  exact ⟨a, by simp, ha⟩

theorem firstSome_eq_none {l : List (Option α)} (h : ∀ c ∈ l, c = none) :
    firstSome l = none := by
  induction l with
  | nil => rfl
  | cons c t ih =>
    have hc := h c (by simp)
    subst hc
    exact ih fun x hx => h x (by simp [hx])

theorem validate_ok_of_checks {p : Playlist} (h : ∀ c ∈ checks p, c = none) :
    validate p = .ok () := by
  unfold validate
  rw [firstSome_eq_none h]

theorem validate_err2 {p : Playlist} {e : ValidationError}
    (h1 : checkChannelsKnown p = none) (h2 : checkScheduleRefs p = some e) :
    validate p = .error e := by
  simp [validate, checks, firstSome, h1, h2]

theorem validate_err3 {p : Playlist} {e : ValidationError}
    (h1 : checkChannelsKnown p = none) (h2 : checkScheduleRefs p = none)
    (h3 : checkWaveformRefs p = some e) :
    validate p = .error e := by
  simp [validate, checks, firstSome, h1, h2, h3]

theorem validate_err4 {p : Playlist} {e : ValidationError}
    (h1 : checkChannelsKnown p = none) (h2 : checkScheduleRefs p = none)
    (h3 : checkWaveformRefs p = none) (h4 : checkChannelCompat p = some e) :
    validate p = .error e := by
  simp [validate, checks, firstSome, h1, h2, h3, h4]

theorem validate_err5 {p : Playlist} {e : ValidationError}
    (h1 : checkChannelsKnown p = none) (h2 : checkScheduleRefs p = none)
    (h3 : checkWaveformRefs p = none) (h4 : checkChannelCompat p = none)
    (h5 : checkMultiplexing p = some e) :
    validate p = .error e := by
  simp [validate, checks, firstSome, h1, h2, h3, h4, h5]

theorem validate_err6 {p : Playlist} {e : ValidationError}
    (h1 : checkChannelsKnown p = none) (h2 : checkScheduleRefs p = none)
    (h3 : checkWaveformRefs p = none) (h4 : checkChannelCompat p = none)
    (h5 : checkMultiplexing p = none) (h6 : checkConditionals p = some e) :
    validate p = .error e := by
  simp [validate, checks, firstSome, h1, h2, h3, h4, h5, h6]

theorem validate_err7 {p : Playlist} {e : ValidationError}
    (h1 : checkChannelsKnown p = none) (h2 : checkScheduleRefs p = none)
    (h3 : checkWaveformRefs p = none) (h4 : checkChannelCompat p = none)
    (h5 : checkMultiplexing p = none) (h6 : checkConditionals p = none)
    (h7 : checkReadoutTriggers p = some e) :
    validate p = .error e := by
  simp [validate, checks, firstSome, h1, h2, h3, h4, h5, h6, h7]

theorem validate_err8 {p : Playlist} {e : ValidationError}
    (h1 : checkChannelsKnown p = none) (h2 : checkScheduleRefs p = none)
    (h3 : checkWaveformRefs p = none) (h4 : checkChannelCompat p = none)
    (h5 : checkMultiplexing p = none) (h6 : checkConditionals p = none)
    (h7 : checkReadoutTriggers p = none) (h8 : checkFeedbackConditions p = some e) :
    validate p = .error e := by
  simp [validate, checks, firstSome, h1, h2, h3, h4, h5, h6, h7, h8]

theorem checkScheduleRefs_some {p : Playlist} {e : ValidationError}
    (h : checkScheduleRefs p = some e) :
    ∃ nm r desc, e = .outOfRangeReference nm .instructionTable r ∧
      lookupChannel p nm = some desc ∧ desc.instruction_table.length ≤ r ∧
      ∃ sched ∈ p.schedules, ∃ ce ∈ sched.channels, ce.1 = nm ∧ r ∈ ce.2.instruction_refs := by
  obtain ⟨sched, hsched, hF⟩ := findSome?_mem h
  obtain ⟨ce, hce, hG⟩ := findSome?_mem hF
  split at hG
  · exact absurd hG (by simp)
  · next desc hl =>
    obtain ⟨r, hr, hH⟩ := findSome?_mem hG
    split at hH
    · exact absurd hH (by simp)
    · next hge =>
      obtain rfl := Option.some.inj hH
      exact ⟨ce.1, r, desc, rfl, hl, le_of_not_lt hge,
        sched, hsched, ce, hce, rfl, hr⟩

theorem checkWaveformRefs_some {p : Playlist} {e : ValidationError}
    (hcons : ∀ ce ∈ p.channels, ∀ w ∈ ce.2.waveform_table, waveformConsistent w = true)
    (h : checkWaveformRefs p = some e) :
    ∃ nm r, e = .outOfRangeReference nm .waveformTable r ∧
      ∃ ce ∈ p.channels, ce.1 = nm ∧ ce.2.waveform_table.length ≤ r ∧
        ∃ ins ∈ ce.2.instruction_table, r ∈ operationWaveformRefs ins.operation := by
  obtain ⟨ce, hce, hF⟩ := findSome?_mem h
  obtain ⟨ins, hins, hG⟩ := findSome?_mem hF
  obtain ⟨r, hr, hH⟩ := findSome?_mem hG
  split at hH
  · next hnone =>
    obtain rfl := Option.some.inj hH
    exact ⟨ce.1, r, rfl, ce, hce, rfl, List.getElem?_eq_none_iff.mp hnone, ins, hins, hr⟩
  · next w hw =>
    split at hH
    · exact absurd hH (by simp)
    · next hbad =>
      exact absurd (hcons ce hce w (List.getElem?_mem hw)) hbad

theorem checkChannelCompat_some {p : Playlist} {e : ValidationError}
    (h : checkChannelCompat p = some e) :
    ∃ nm r desc ins, e = .incompatibleInstructionForChannel nm r ∧
      lookupChannel p nm = some desc ∧ desc.instruction_table[r]? = some ins ∧
      compatible ins.operation desc.channel_config = false ∧
      ∃ sched ∈ p.schedules, ∃ ce ∈ sched.channels, ce.1 = nm ∧ r ∈ ce.2.instruction_refs := by
  obtain ⟨sched, hsched, hF⟩ := findSome?_mem h
  obtain ⟨ce, hce, hG⟩ := findSome?_mem hF
  split at hG
  · exact absurd hG (by simp)
  · next desc hl =>
    obtain ⟨r, hr, hH⟩ := findSome?_mem hG
    split at hH
    · exact absurd hH (by simp)
    · next ins hins =>
      split at hH
      · exact absurd hH (by simp)
      · next hcmp =>
        obtain rfl := Option.some.inj hH
        exact ⟨ce.1, r, desc, ins, rfl, hl, hins, Bool.eq_false_iff.mpr hcmp,
          sched, hsched, ce, hce, rfl, hr⟩

theorem checkReadoutTriggers_some {p : Playlist} {e : ValidationError}
    (htp : triggerPoliciesOk p) (h : checkReadoutTriggers p = some e) :
    ∃ nm r, e = .outOfRangeReference nm .acquisitionTable r ∧
      ∃ ce ∈ p.channels, ce.1 = nm ∧ ce.2.acquisition_table.length ≤ r ∧
        ∃ ie ∈ ce.2.instruction_table.enum, ∃ t,
          ie.2.operation = .readout_trigger t ∧ r ∈ t.acqusitions := by
  obtain ⟨ce, hce, hF⟩ := findSome?_mem h
  obtain ⟨ie, hie, hG⟩ := findSome?_mem hF
  have hmem : ie.2 ∈ ce.2.instruction_table := by
    have := List.mk_mem_enum_iff_getElem?.mp (show (ie.1, ie.2) ∈ ce.2.instruction_table.enum by
      simpa using hie)
    exact List.getElem?_mem this
  split at hG
  case _ t ht =>
    have hpol := htp ce hce ie.2 hmem
    rw [ht] at hpol
    simp only [triggerPolicyOk, Bool.and_eq_true, decide_eq_true_eq, Bool.not_eq_true,
      Option.isNone_iff_eq_none] at hpol
    obtain ⟨hprobe, hlen2, hmix, hdup⟩ := hpol
    split at hG
    · next hge => omega
    · split at hG
      · next e2 hfs =>
        obtain rfl := Option.some.inj hG
        obtain ⟨r, hr, hH⟩ := findSome?_mem hfs
        split at hH
        · exact absurd hH (by simp)
        · next hgeacq =>
          obtain rfl := Option.some.inj hH
          exact ⟨ce.1, r, rfl, ce, hce, rfl, le_of_not_lt hgeacq, ie, hie, t, ht, hr⟩
      · next hfs =>
        split at hG
        · next h2t => omega
        · split at hG
          · next hmx => simp [hmx] at hmix
          · rw [hdup] at hG
            exact absurd hG (by simp)
  all_goals exact absurd hG (by simp)

/-- C4: a Playlist all of whose validity checks pass is accepted, and a
dangling reference — an instruction index referenced from a schedule, a
waveform index referenced from an instruction, or an acquisition index
referenced from a readout trigger, out of range for the owning channel's
table — is rejected (in the fixed fail-fast order) with `OutOfRangeReference`
identifying the exact channel, table and index. -/
theorem C4_reference_resolution :
    (∀ p : Playlist, (∀ c ∈ checks p, c = none) → validate p = .ok ()) ∧
    (∀ (p : Playlist) (e : ValidationError),
      checkChannelsKnown p = none → checkScheduleRefs p = some e →
      validate p = .error e ∧
        ∃ nm r desc, e = .outOfRangeReference nm .instructionTable r ∧
          lookupChannel p nm = some desc ∧ desc.instruction_table.length ≤ r ∧
          ∃ sched ∈ p.schedules, ∃ ce ∈ sched.channels, ce.1 = nm ∧
            r ∈ ce.2.instruction_refs) ∧
    (∀ (p : Playlist) (e : ValidationError),
      checkChannelsKnown p = none → checkScheduleRefs p = none →
      (∀ ce ∈ p.channels, ∀ w ∈ ce.2.waveform_table, waveformConsistent w = true) →
      checkWaveformRefs p = some e →
      validate p = .error e ∧
        ∃ nm r, e = .outOfRangeReference nm .waveformTable r ∧
          ∃ ce ∈ p.channels, ce.1 = nm ∧ ce.2.waveform_table.length ≤ r ∧
            ∃ ins ∈ ce.2.instruction_table, r ∈ operationWaveformRefs ins.operation) ∧
    (∀ (p : Playlist) (e : ValidationError),
      checkChannelsKnown p = none → checkScheduleRefs p = none →
      checkWaveformRefs p = none → checkChannelCompat p = none →
      checkMultiplexing p = none → checkConditionals p = none →
      triggerPoliciesOk p → checkReadoutTriggers p = some e →
      validate p = .error e ∧
        ∃ nm r, e = .outOfRangeReference nm .acquisitionTable r ∧
          ∃ ce ∈ p.channels, ce.1 = nm ∧ ce.2.acquisition_table.length ≤ r ∧
            ∃ ie ∈ ce.2.instruction_table.enum, ∃ t,
              ie.2.operation = .readout_trigger t ∧ r ∈ t.acqusitions) := by
  refine ⟨fun p h => validate_ok_of_checks h, ?_, ?_, ?_⟩
  · intro p e h1 h2
    exact ⟨validate_err2 h1 h2, checkScheduleRefs_some h2⟩
  · intro p e h1 h2 hcons h3
    exact ⟨validate_err3 h1 h2 h3, checkWaveformRefs_some hcons h3⟩
  · intro p e h1 h2 h3 h4 h5 h6 htp h7
    exact ⟨validate_err7 h1 h2 h3 h4 h5 h6 h7, checkReadoutTriggers_some htp h7⟩

/-- Witness instantiating C4 on concrete playlists: a valid playlist is
accepted, and concrete dangling instruction, waveform and acquisition
references are each rejected with the exact out-of-range error. -/
theorem C4_reference_resolution_witness :
    validate exGood = .ok () ∧
    validate exDanglingInstr = .error (.outOfRangeReference chA .instructionTable 3) ∧
    validate exDanglingWf = .error (.outOfRangeReference chA .waveformTable 5) ∧
    validate exDanglingAcq = .error (.outOfRangeReference chR .acquisitionTable 3) :=
  ⟨C4_reference_resolution.1 exGood (by decide),
   (C4_reference_resolution.2.1 exDanglingInstr _ (by decide) (by decide)).1,
   (C4_reference_resolution.2.2.1 exDanglingWf _ (by decide) (by decide) (by decide)
      (by decide)).1,
   (C4_reference_resolution.2.2.2 exDanglingAcq _ (by decide) (by decide) (by decide)
      (by decide) (by decide) (by decide) (by decide) (by decide)).1⟩

/-- C7: when the first three checks pass, a Playlist in which some Schedule
references an instruction whose variant is illegal for the owning channel's
configuration kind is rejected with `IncompatibleInstructionForChannel`
naming a genuinely incompatible channel and instruction index; in particular
the compatibility matrix forbids IQ pulses on real channels and readout
triggers on IQ or real channels. -/
theorem C7_channel_kind_compatibility :
    (∀ p : Playlist,
      checkChannelsKnown p = none → checkScheduleRefs p = none →
      checkWaveformRefs p = none →
      (∃ sched ∈ p.schedules, ∃ ce ∈ sched.channels, ∃ desc,
        lookupChannel p ce.1 = some desc ∧ ∃ r ∈ ce.2.instruction_refs, ∃ ins,
          desc.instruction_table[r]? = some ins ∧
          compatible ins.operation desc.channel_config = false) →
      ∃ nm i, validate p = .error (.incompatibleInstructionForChannel nm i) ∧
        ∃ desc ins, lookupChannel p nm = some desc ∧
          desc.instruction_table[i]? = some ins ∧
          compatible ins.operation desc.channel_config = false) ∧
    (∀ (pu : IQPulse) (s : ℚ), compatible (.iq_pulse pu) (.real_channel s) = false) ∧
    (∀ (t : ReadoutTrigger) (s : ℚ),
      compatible (.readout_trigger t) (.iq_channel s) = false ∧
      compatible (.readout_trigger t) (.real_channel s) = false) := by
  refine ⟨?_, fun pu s => rfl, fun t s => ⟨rfl, rfl⟩⟩
  intro p h1 h2 h3 hex
  have hne : checkChannelCompat p ≠ none := by
    intro hnone
    obtain ⟨sched, hsched, ce, hce, desc, hl, r, hr, ins, hins, hbad⟩ := hex
    have hsch := List.findSome?_eq_none_iff.mp hnone sched hsched
    have hch := List.findSome?_eq_none_iff.mp hsch ce hce
    rw [hl] at hch
    have hrr := List.findSome?_eq_none_iff.mp hch r hr
    rw [hins] at hrr
    rw [Bool.eq_false_iff] at hbad
    simp [hbad] at hrr
  obtain ⟨e, he⟩ := Option.ne_none_iff_exists.mp hne
  obtain ⟨nm, r, desc, ins, rfl, hl, hins, hbad, -⟩ := checkChannelCompat_some he.symm
  exact ⟨nm, r, validate_err4 h1 h2 h3 he.symm, desc, ins, hl, hins, hbad⟩

/-- Witness instantiating C7: an IQ pulse scheduled on a real channel and a
readout trigger scheduled on an IQ channel are both rejected with
`IncompatibleInstructionForChannel`. -/
theorem C7_channel_kind_compatibility_witness :
    (∃ nm i, validate exIncompatIQ = .error (.incompatibleInstructionForChannel nm i)) ∧
    (∃ nm i, validate exIncompatTrig = .error (.incompatibleInstructionForChannel nm i)) ∧
    compatible (.iq_pulse zeroIQPulse) (.real_channel 1) = false ∧
    compatible (.readout_trigger ⟨0, []⟩) (.iq_channel 1) = false := by
  refine ⟨?_, ?_, (C7_channel_kind_compatibility.2.1 zeroIQPulse 1),
    (C7_channel_kind_compatibility.2.2 ⟨0, []⟩ 1).1⟩
  · obtain ⟨nm, i, hv, -⟩ := C7_channel_kind_compatibility.1 exIncompatIQ
      (by decide) (by decide) (by decide)
      ⟨⟨[(chA, ⟨[0]⟩)]⟩, by decide, (chA, ⟨[0]⟩), by decide,
        exIncompatIQDesc, by decide, 0, by decide,
        ⟨3, .iq_pulse ⟨0, 1, 1, 1, 0, 0, 0⟩⟩, by decide, by decide⟩
    exact ⟨nm, i, hv⟩
  · obtain ⟨nm, i, hv, -⟩ := C7_channel_kind_compatibility.1 exIncompatTrig
      (by decide) (by decide) (by decide)
      ⟨⟨[(chQ, ⟨[0]⟩)]⟩, by decide, (chQ, ⟨[0]⟩), by decide,
        exIncompatTrigDesc, by decide, 0, by decide,
        ⟨3, .readout_trigger ⟨0, []⟩⟩, by decide, by decide⟩
    exact ⟨nm, i, hv⟩

/-! ### Conditional-branch reachability

The bounded detector `reachesB` (fuel = table length) decides reachability
along the logical conditional reference graph exactly: any transitive cycle
can be shortened, by removing repeated vertices, to one of length at most the
table length. -/

theorem condStep_lt {tbl : List Instruction} {a b : Nat} (h : condStep tbl a b) :
    a < tbl.length := by
  unfold condStep condSuccs at h
  split at h
  · next ins heq =>
    by_contra hlt
    push_neg at hlt
    rw [List.getElem?_eq_none hlt] at heq
    exact absurd heq (by simp)
  · simp at h

theorem condStep_inv {tbl : List Instruction} {a b : Nat} (h : condStep tbl a b) :
    ∃ ins, tbl[a]? = some ins ∧ ∃ c, ins.operation = .conditional_instruction c ∧
      (b = c.if_true ∨ b = c.if_false) := by
  unfold condStep condSuccs at h
  split at h
  · next ins heq =>
    split at h
    · next c hc =>
      refine ⟨ins, heq, c, hc, ?_⟩
      simpa using h
    · simp at h
  · simp at h

theorem reachesB_mono {tbl : List Instruction} {f1 f2 a b : Nat} (hle : f1 ≤ f2)
    (h : reachesB tbl f1 a b = true) : reachesB tbl f2 a b = true := by
  induction f1 generalizing f2 a with
  | zero => simp [reachesB] at h
  | succ f ih =>
    obtain ⟨f2, rfl⟩ : ∃ g, f2 = g + 1 := ⟨f2 - 1, by omega⟩
    rw [reachesB, List.any_eq_true] at h ⊢
    obtain ⟨j, hj, hor⟩ := h
    refine ⟨j, hj, ?_⟩
    rcases Bool.or_eq_true_iff.mp hor with hb | hr
    · simp [hb]
    · have hx : reachesB tbl f2 j b = true := ih (by omega) hr
      simp [hx]

theorem transGen_of_reachesB {tbl : List Instruction} {fuel a b : Nat}
    (h : reachesB tbl fuel a b = true) : Relation.TransGen (condStep tbl) a b := by
  induction fuel generalizing a with
  | zero => simp [reachesB] at h
  | succ f ih =>
    rw [reachesB, List.any_eq_true] at h
    obtain ⟨j, hj, hor⟩ := h
    rcases Bool.or_eq_true_iff.mp hor with hb | hr
    · obtain rfl : j = b := by simpa using hb
      exact Relation.TransGen.single hj
    · exact Relation.TransGen.head hj (ih hr)

theorem exists_chain_of_transGen {tbl : List Instruction} {a b : Nat}
    (h : Relation.TransGen (condStep tbl) a b) :
    ∃ l, List.Chain (condStep tbl) a l ∧ l ≠ [] ∧ (a :: l).getLast? = some b := by
  induction h with
  | single hstep => exact ⟨[_], List.Chain.cons hstep List.Chain.nil, by simp, by simp⟩
  | @tail b c _ hstep ih =>
    obtain ⟨l, hch, hne, hlast⟩ := ih
    have hch' : List.Chain' (condStep tbl) ((a :: l) ++ [c]) := by
      refine List.Chain'.append hch (List.chain'_singleton c) ?_
      intro x hx y hy
      simp only [List.head?_cons, Option.mem_def, Option.some.injEq] at hy
      rw [hlast] at hx
      simp only [Option.mem_def, Option.some.injEq] at hx
      subst hx
      subst hy
      exact hstep
    rw [List.cons_append] at hch'
    exact ⟨l ++ [c], hch', by simp, by rw [← List.cons_append, List.getLast?_append]; rfl⟩

theorem reachesB_of_chain {tbl : List Instruction} :
    ∀ (l : List Nat) (a b : Nat), List.Chain (condStep tbl) a l → l ≠ [] →
      (a :: l).getLast? = some b → reachesB tbl l.length a b = true := by
  intro l
  induction l with
  | nil => intro a b _ hne _; exact absurd rfl hne
  | cons x xs ih =>
    intro a b hch _ hlast
    rw [List.chain_cons] at hch
    obtain ⟨hax, hch⟩ := hch
    cases xs with
    | nil =>
      simp only [List.getLast?_cons_cons, List.getLast?_singleton, Option.some.injEq] at hlast
      subst hlast
      exact List.any_eq_true.mpr ⟨x, hax, by simp⟩
    | cons y ys =>
      have hlast' : (x :: y :: ys).getLast? = some b := by
        simpa [List.getLast?_cons_cons] using hlast
      have hrec := ih x b hch (by simp) hlast'
      refine List.any_eq_true.mpr ⟨x, hax, ?_⟩
      simp only [Bool.or_eq_true, beq_iff_eq]
      exact Or.inr (by simpa using hrec)

theorem chain'_has_succ {tbl : List Instruction} :
    ∀ (F : List Nat), List.Chain' (condStep tbl) F →
      ∀ x ∈ F.dropLast, ∃ y, condStep tbl x y := by
  intro F
  induction F with
  | nil => simp
  | cons c F' ih =>
    intro hch x hx
    cases F' with
    | nil => simp at hx
    | cons d F'' =>
      rw [List.chain'_cons] at hch
      obtain ⟨hcd, hch⟩ := hch
      have hsplit : x = c ∨ x ∈ (d :: F'').dropLast := by
        rcases List.mem_cons.mp (by simpa using hx) with h | h
        · exact Or.inl h
        · exact Or.inr h
      rcases hsplit with rfl | hx'
      · exact ⟨d, hcd⟩
      · exact ih hch x hx'

theorem length_le_of_nodup_lt {l : List Nat} {n : Nat} (h : l.Nodup)
    (hb : ∀ x ∈ l, x < n) : l.length ≤ n := by
  have h1 : l.toFinset.card = l.length := List.toFinset_card_of_nodup h
  have h2 : l.toFinset ⊆ Finset.range n := fun x hx => by
    simp only [List.mem_toFinset] at hx
    simpa using hb x hx
  simpa [h1] using Finset.card_le_card h2

theorem dup_split {x : Nat} {l : List Nat} (h : [x, x].Sublist l) :
    ∃ l1 l2 l3, l = l1 ++ x :: l2 ++ x :: l3 := by
  obtain ⟨r1, r2, rfl, hx1, hx2⟩ := List.cons_sublist_iff.mp h
  obtain ⟨s1, s2, rfl, hx3, -⟩ := List.cons_sublist_iff.mp hx2
  obtain ⟨u, v, rfl⟩ := List.append_of_mem hx1
  obtain ⟨w, z, rfl⟩ := List.append_of_mem hx3
  exact ⟨u, v ++ w, z ++ s2, by simp⟩

theorem chain_shorten {tbl : List Instruction} {b : Nat} :
    ∀ (k : Nat) (a : Nat) (l : List Nat), l.length ≤ k →
      List.Chain (condStep tbl) a l → l ≠ [] → (a :: l).getLast? = some b →
      ∃ l2, List.Chain (condStep tbl) a l2 ∧ l2 ≠ [] ∧
        (a :: l2).getLast? = some b ∧ l2.length ≤ tbl.length := by
  intro k
  induction k with
  | zero =>
    intro a l hlen _ hne _
    cases l with
    | nil => exact absurd rfl hne
    | cons x xs => simp at hlen
  | succ k ih =>
    intro a l hlen hch hne hlast
    by_cases hsmall : l.length ≤ tbl.length
    · exact ⟨l, hch, hne, hlast, hsmall⟩
    push_neg at hsmall
    have hFne : (a :: l) ≠ [] := by simp
    have hgl : (a :: l).getLast hFne = b := by
      have hq := List.getLast?_eq_getLast (a :: l) hFne
      rw [hlast] at hq
      exact (Option.some.inj hq).symm
    have hdeq : (a :: l).dropLast ++ [b] = a :: l := by
      rw [← hgl]
      exact List.dropLast_append_getLast hFne
    have hsucc : ∀ x ∈ (a :: l).dropLast, ∃ y, condStep tbl x y :=
      chain'_has_succ (a :: l) hch
    have hltn : ∀ x ∈ (a :: l).dropLast, x < tbl.length := by
      intro x hx
      obtain ⟨y, hy⟩ := hsucc x hx
      exact condStep_lt hy
    have hnodup : ¬ (a :: l).dropLast.Nodup := by
      intro hnd
      have hle := length_le_of_nodup_lt hnd hltn
      have hdl : (a :: l).dropLast.length = l.length := by simp
      omega
    have hdup : ∃ x, (a :: l).dropLast.Duplicate x := by
      rw [List.nodup_iff_forall_not_duplicate] at hnodup
      push_neg at hnodup
      exact hnodup
    obtain ⟨x, hdupx⟩ := hdup
    obtain ⟨f1, f2, f3, hsplit⟩ := dup_split (List.duplicate_iff_sublist.mp hdupx)
    have hFeq : a :: l = f1 ++ x :: f2 ++ x :: (f3 ++ [b]) := by
      rw [← hdeq, hsplit]
      simp
    cases f1 with
    | nil =>
      simp only [List.nil_append, List.cons_append] at hFeq
      obtain ⟨rfl, rfl⟩ : a = x ∧ l = f2 ++ x :: (f3 ++ [b]) := by
        have h1 := congrArg List.head? hFeq
        simp only [List.head?_cons, Option.some.injEq] at h1
        subst h1
        exact ⟨rfl, by simpa using congrArg List.tail hFeq⟩
      have hchF : List.Chain' (condStep tbl) ((a :: f2) ++ a :: (f3 ++ [b])) := by
        have hcc : List.Chain' (condStep tbl) (a :: (f2 ++ a :: (f3 ++ [b]))) := hch
        simpa using hcc
      have hc2 : List.Chain' (condStep tbl) (a :: (f3 ++ [b])) :=
        (List.chain'_split.mp hchF).2
      have hlen2 : (f3 ++ [b]).length ≤ k := by
        simp only [List.length_append, List.length_cons, List.length_nil] at hlen ⊢
        omega
      refine ih a (f3 ++ [b]) hlen2 hc2 (by simp) ?_
      rw [← List.cons_append, List.getLast?_append]
      rfl
    | cons c f1' =>
      simp only [List.cons_append] at hFeq
      obtain ⟨rfl, rfl⟩ : a = c ∧ l = f1' ++ x :: f2 ++ x :: (f3 ++ [b]) := by
        have h1 := congrArg List.head? hFeq
        simp only [List.head?_cons, Option.some.injEq] at h1
        subst h1
        exact ⟨rfl, by simpa using congrArg List.tail hFeq⟩
      have hchF : List.Chain' (condStep tbl)
          ((a :: f1') ++ x :: (f2 ++ x :: (f3 ++ [b]))) := by
        have hcc : List.Chain' (condStep tbl)
            (a :: (f1' ++ x :: f2 ++ x :: (f3 ++ [b]))) := hch
        simpa using hcc
      obtain ⟨hC1, hC2⟩ := List.chain'_split.mp hchF
      have hC2' : List.Chain' (condStep tbl) ((x :: f2) ++ x :: (f3 ++ [b])) := by
        simpa using hC2
      have hC2b := (List.chain'_split.mp hC2').2
      have hnew : List.Chain' (condStep tbl) ((a :: f1') ++ x :: (f3 ++ [b])) :=
        List.chain'_split.mpr ⟨hC1, hC2b⟩
      have hnew' : List.Chain (condStep tbl) a (f1' ++ x :: (f3 ++ [b])) := by
        simpa using hnew
      have hlen2 : (f1' ++ x :: (f3 ++ [b])).length ≤ k := by
        simp only [List.length_append, List.length_cons, List.length_nil] at hlen ⊢
        omega
      refine ih a (f1' ++ x :: (f3 ++ [b])) hlen2 hnew' (by simp) ?_
      have heq2 : a :: (f1' ++ x :: (f3 ++ [b])) = (a :: f1' ++ x :: f3) ++ [b] := by simp
      rw [heq2, List.getLast?_append]
      rfl

theorem reachesB_of_transGen {tbl : List Instruction} {a b : Nat}
    (h : Relation.TransGen (condStep tbl) a b) :
    reachesB tbl tbl.length a b = true := by
  obtain ⟨l, hch, hne, hlast⟩ := exists_chain_of_transGen h
  obtain ⟨l2, hch2, hne2, hlast2, hlen2⟩ := chain_shorten l.length a l le_rfl hch hne hlast
  exact reachesB_mono hlen2 (reachesB_of_chain l2 a b hch2 hne2 hlast2)

theorem enum_mem_getElem? {α : Type _} {l : List α} {ie : Nat × α} (h : ie ∈ l.enum) :
    l[ie.1]? = some ie.2 :=
  List.mk_mem_enum_iff_getElem?.mp (by simpa using h)

theorem checkConditionals_some {p : Playlist} {e : ValidationError}
    (hbr : condBranchesResolve p) (h : checkConditionals p = some e) :
    ∃ nm i, e = .conditionalCycle nm i ∧ ∃ ce ∈ p.channels, ce.1 = nm ∧
      Relation.TransGen (condStep ce.2.instruction_table) i i := by
  obtain ⟨ce, hce, hF⟩ := findSome?_mem h
  obtain ⟨ie, hie, hG⟩ := findSome?_mem hF
  have hmem : ie.2 ∈ ce.2.instruction_table := List.getElem?_mem (enum_mem_getElem? hie)
  split at hG
  case _ c hc =>
    have hok := hbr ce hce ie.2 hmem
    rw [hc] at hok
    simp only [condRefsOk, Bool.and_eq_true, decide_eq_true_eq] at hok
    split at hG
    · next hlt => omega
    · split at hG
      · next hlt => omega
      · split at hG
        · next hre =>
          obtain rfl := Option.some.inj hG
          exact ⟨ce.1, ie.1, rfl, ce, hce, rfl, transGen_of_reachesB hre⟩
        · exact absurd hG (by simp)
  all_goals exact absurd hG (by simp)

theorem checkConditionals_none_of {p : Playlist} (hbr : condBranchesResolve p)
    (hnc : ∀ ce ∈ p.channels, ∀ ie ∈ ce.2.instruction_table.enum,
      ¬ Relation.TransGen (condStep ce.2.instruction_table) ie.1 ie.1) :
    checkConditionals p = none := by
  rw [checkConditionals]
  refine List.findSome?_eq_none_iff.mpr fun ce hce => ?_
  refine List.findSome?_eq_none_iff.mpr fun ie hie => ?_
  have hmem : ie.2 ∈ ce.2.instruction_table := List.getElem?_mem (enum_mem_getElem? hie)
  cases hop : ie.2.operation <;> simp only [hop] <;> try rfl
  case conditional_instruction c =>
    have hok := hbr ce hce ie.2 hmem
    rw [hop] at hok
    simp only [condRefsOk, Bool.and_eq_true, decide_eq_true_eq] at hok
    rw [if_neg (by omega), if_neg (by omega), if_neg ?_]
    intro hre
    exact hnc ce hce ie hie (transGen_of_reachesB hre)

theorem checkConditionals_ne_none {p : Playlist} {ce : String × ChannelDescription}
    {i : Nat} (hce : ce ∈ p.channels) (hbr : condBranchesResolve p)
    (hcyc : Relation.TransGen (condStep ce.2.instruction_table) i i) :
    checkConditionals p ≠ none := by
  intro hnone
  obtain ⟨j, hstep, -⟩ := Relation.TransGen.head'_iff.mp hcyc
  obtain ⟨ins, hins, c, hcond, -⟩ := condStep_inv hstep
  have hie : (i, ins) ∈ ce.2.instruction_table.enum :=
    List.mk_mem_enum_iff_getElem?.mpr hins
  have h1 := List.findSome?_eq_none_iff.mp hnone ce hce
  have h2 := List.findSome?_eq_none_iff.mp h1 (i, ins) hie
  simp only [hcond] at h2
  have hok := hbr ce hce ins (List.getElem?_mem hins)
  rw [hcond] at hok
  simp only [condRefsOk, Bool.and_eq_true, decide_eq_true_eq] at hok
  rw [if_neg (by omega), if_neg (by omega)] at h2
  have hre : reachesB ce.2.instruction_table ce.2.instruction_table.length i i = true :=
    reachesB_of_transGen hcyc
  rw [if_pos hre] at h2
  exact absurd h2 (by simp)

theorem checkMultiplexing_some {p : Playlist} {e : ValidationError}
    (hmr : mpxRefsResolve p) (h : checkMultiplexing p = some e) :
    ∃ nm i, e = .multiplexingCycle nm i ∧ ∃ ce ∈ p.channels, ce.1 = nm ∧
      ∃ ie ∈ ce.2.instruction_table.enum, ie.1 = i ∧ badMpxEntry ce.2 ie := by
  obtain ⟨ce, hce, hF⟩ := findSome?_mem h
  obtain ⟨ie, hie, hG⟩ := findSome?_mem hF
  have hmem : ie.2 ∈ ce.2.instruction_table := List.getElem?_mem (enum_mem_getElem? hie)
  split at hG
  case _ m hm =>
    obtain ⟨en, hen, hH⟩ := findSome?_mem hG
    have hok := hmr ce hce ie.2 hmem
    rw [hm] at hok
    simp only [mpxEntryRefsOk, List.all_eq_true] at hok
    split at hH
    case _ r hr =>
      have hrok := hok en hen
      rw [hr] at hrok
      simp only [decide_eq_true_eq] at hrok
      split at hH
      · next hnone =>
        rw [List.getElem?_eq_none_iff] at hnone
        omega
      · next tgt htgt =>
        cases htop : tgt.operation
        case iq_pulse q =>
          simp only [htop] at hH
          exact absurd hH (by simp)
        all_goals
          simp only [htop] at hH
          obtain rfl := Option.some.inj hH
          exact ⟨ce.1, ie.1, rfl, ce, hce, rfl, ie, hie, rfl,
            Or.inl ⟨m, hm, en, hen, r, tgt, hr, htgt, by simp [isIQPulseKind, htop]⟩⟩
    case _ q hq => exact absurd hH (by simp)
  case _ m hm =>
    obtain ⟨en, hen, hH⟩ := findSome?_mem hG
    have hok := hmr ce hce ie.2 hmem
    rw [hm] at hok
    simp only [mpxEntryRefsOk, List.all_eq_true] at hok
    split at hH
    case _ r hr =>
      have hrok := hok en hen
      rw [hr] at hrok
      simp only [decide_eq_true_eq] at hrok
      split at hH
      · next hnone =>
        rw [List.getElem?_eq_none_iff] at hnone
        omega
      · next tgt htgt =>
        cases htop : tgt.operation
        case real_pulse q =>
          simp only [htop] at hH
          exact absurd hH (by simp)
        all_goals
          simp only [htop] at hH
          obtain rfl := Option.some.inj hH
          exact ⟨ce.1, ie.1, rfl, ce, hce, rfl, ie, hie, rfl,
            Or.inr ⟨m, hm, en, hen, r, tgt, hr, htgt, by simp [isRealPulseKind, htop]⟩⟩
    case _ q hq => exact absurd hH (by simp)
  all_goals exact absurd hG (by simp)

theorem checkMultiplexing_ne_none {p : Playlist} {ce : String × ChannelDescription}
    {ie : Nat × Instruction} (hce : ce ∈ p.channels)
    (hie : ie ∈ ce.2.instruction_table.enum) (hbad : badMpxEntry ce.2 ie) :
    checkMultiplexing p ≠ none := by
  intro hnone
  have h1 := List.findSome?_eq_none_iff.mp hnone ce hce
  have h2 := List.findSome?_eq_none_iff.mp h1 ie hie
  rcases hbad with ⟨m, hm, en, hen, r, tgt, hr, htgt, hbadk⟩ |
    ⟨m, hm, en, hen, r, tgt, hr, htgt, hbadk⟩
  · simp only [hm] at h2
    have h3 := List.findSome?_eq_none_iff.mp h2 en hen
    simp only [hr, htgt] at h3
    cases htop : tgt.operation <;> simp [htop, isIQPulseKind] at hbadk h3
  · simp only [hm] at h2
    have h3 := List.findSome?_eq_none_iff.mp h2 en hen
    simp only [hr, htgt] at h3
    cases htop : tgt.operation <;> simp [htop, isRealPulseKind] at hbadk h3

/-- C6: when the preceding checks pass, a Playlist in which a conditional
instruction's branch references transitively reach the conditional itself is
rejected with `ConditionalCycle`; a Playlist in which a multiplexed pulse
entry references (in range) an instruction that is not of the matching
non-multiplexed pulse kind — in particular its own containing multiplexed
instruction — is rejected with `MultiplexingCycle`; and acyclic nesting of
conditionals is accepted. -/
theorem C6_cycle_rejection :
    (∀ (p : Playlist) (ce : String × ChannelDescription) (i : Nat),
      checkChannelsKnown p = none → checkScheduleRefs p = none →
      checkWaveformRefs p = none → checkChannelCompat p = none →
      checkMultiplexing p = none →
      condBranchesResolve p → ce ∈ p.channels →
      Relation.TransGen (condStep ce.2.instruction_table) i i →
      ∃ nm j, validate p = .error (.conditionalCycle nm j) ∧
        ∃ ce2 ∈ p.channels, ce2.1 = nm ∧
          Relation.TransGen (condStep ce2.2.instruction_table) j j) ∧
    (∀ (p : Playlist) (ce : String × ChannelDescription) (ie : Nat × Instruction),
      checkChannelsKnown p = none → checkScheduleRefs p = none →
      checkWaveformRefs p = none → checkChannelCompat p = none →
      mpxRefsResolve p → ce ∈ p.channels → ie ∈ ce.2.instruction_table.enum →
      badMpxEntry ce.2 ie →
      ∃ nm j, validate p = .error (.multiplexingCycle nm j) ∧
        ∃ ce2 ∈ p.channels, ce2.1 = nm ∧ ∃ ie2 ∈ ce2.2.instruction_table.enum,
          ie2.1 = j ∧ badMpxEntry ce2.2 ie2) ∧
    (∀ (desc : ChannelDescription) (ie : Nat × Instruction) (m : MultiplexedIQPulse),
      ie.2.operation = .multiplexed_iq_pulse m →
      desc.instruction_table[ie.1]? = some ie.2 →
      ∀ en ∈ m.entries, en.pulse = .instruction_ref ie.1 → badMpxEntry desc ie) ∧
    (∀ p : Playlist,
      checkChannelsKnown p = none → checkScheduleRefs p = none →
      checkWaveformRefs p = none → checkChannelCompat p = none →
      checkMultiplexing p = none → checkReadoutTriggers p = none →
      checkFeedbackConditions p = none → condBranchesResolve p →
      (∀ ce ∈ p.channels, ∀ ie ∈ ce.2.instruction_table.enum,
        ¬ Relation.TransGen (condStep ce.2.instruction_table) ie.1 ie.1) →
      validate p = .ok ()) := by
  refine ⟨?_, ?_, ?_, ?_⟩
  · intro p ce i h1 h2 h3 h4 h5 hbr hce hcyc
    obtain ⟨e, he⟩ := Option.ne_none_iff_exists.mp (checkConditionals_ne_none hce hbr hcyc)
    obtain ⟨nm, j, rfl, ce2, hce2, hnm, hcyc2⟩ := checkConditionals_some hbr he.symm
    exact ⟨nm, j, validate_err6 h1 h2 h3 h4 h5 he.symm, ce2, hce2, hnm, hcyc2⟩
  · intro p ce ie h1 h2 h3 h4 hmr hce hie hbad
    obtain ⟨e, he⟩ := Option.ne_none_iff_exists.mp (checkMultiplexing_ne_none hce hie hbad)
    obtain ⟨nm, j, rfl, ce2, hce2, hnm, ie2, hie2, hj, hbad2⟩ :=
      checkMultiplexing_some hmr he.symm
    exact ⟨nm, j, validate_err5 h1 h2 h3 h4 he.symm, ce2, hce2, hnm, ie2, hie2, hj, hbad2⟩
  · intro desc ie m hm hself en hen hpulse
    exact Or.inl ⟨m, hm, en, hen, ie.1, ie.2, hpulse, hself, by simp [isIQPulseKind, hm]⟩
  · intro p h1 h2 h3 h4 h5 h7 h8 hbr hnc
    have h6 := checkConditionals_none_of hbr hnc
    apply validate_ok_of_checks
    intro c hc
    simp only [checks, List.mem_cons, List.not_mem_nil, or_false] at hc
    rcases hc with rfl | rfl | rfl | rfl | rfl | rfl | rfl | rfl <;> assumption

/-- Witness instantiating C6: a self-referencing conditional is rejected with
`ConditionalCycle`, a multiplexed pulse whose entry references its own
containing instruction is rejected with `MultiplexingCycle`, and a playlist
with acyclically nested conditionals is accepted. -/
theorem C6_cycle_rejection_witness :
    (∃ nm j, validate exCondCycle = .error (.conditionalCycle nm j)) ∧
    (∃ nm j, validate exMpxSelf = .error (.multiplexingCycle nm j)) ∧
    validate exNested = .ok () := by
  refine ⟨?_, ?_, ?_⟩
  · obtain ⟨nm, j, hv, -⟩ := C6_cycle_rejection.1 exCondCycle
      (chC, { controller_name := ctrl
              channel_config := .iq_channel 1
              instruction_table :=
                [⟨1, .conditional_instruction ⟨lblX, 0, 1⟩⟩, ⟨1, .wait⟩]
              waveform_table := []
              acquisition_table := [] }) 0
      (by decide) (by decide) (by decide) (by decide) (by decide) (by decide) (by decide)
      (Relation.TransGen.single (by decide))
    exact ⟨nm, j, hv⟩
  · obtain ⟨nm, j, hv, -⟩ := C6_cycle_rejection.2.1 exMpxSelf
      (chQ, { controller_name := ctrl
              channel_config := .iq_channel 1
              instruction_table :=
                [⟨4, .multiplexed_iq_pulse ⟨[⟨0, .instruction_ref 0⟩]⟩⟩]
              waveform_table := []
              acquisition_table := [] })
      (0, ⟨4, .multiplexed_iq_pulse ⟨[⟨0, .instruction_ref 0⟩]⟩⟩)
      (by decide) (by decide) (by decide) (by decide) (by decide) (by decide) (by decide)
      (C6_cycle_rejection.2.2.1 _ _ ⟨[⟨0, .instruction_ref 0⟩]⟩ rfl (by decide)
        ⟨0, .instruction_ref 0⟩ (by decide) rfl)
    exact ⟨nm, j, hv⟩
  · refine C6_cycle_rejection.2.2.2 exNested (by decide) (by decide) (by decide)
      (by decide) (by decide) (by decide) (by decide) (by decide) ?_
    intro ce hce ie hie hcyc
    have hb := reachesB_of_transGen hcyc
    fin_cases hce <;> fin_cases hie <;> exact absurd hb (by decide)

theorem checkFeedbackConditions_none_iff {p : Playlist} :
    checkFeedbackConditions p = none ↔ condLabelsResolve p := by
  constructor
  · intro h ce hce ins hins
    obtain ⟨n, hn⟩ := List.getElem?_of_mem hins
    have hie : (n, ins) ∈ ce.2.instruction_table.enum :=
      List.mk_mem_enum_iff_getElem?.mpr hn
    have h1 := List.findSome?_eq_none_iff.mp h ce hce
    have h2 := List.findSome?_eq_none_iff.mp h1 (n, ins) hie
    cases hop : ins.operation <;> simp only [condLabelOk] <;> try rfl
    case conditional_instruction c =>
      simp only [hop] at h2
      split at h2
      · next hmm => simp [hmm]
      · exact absurd h2 (by simp)
  · intro h
    rw [checkFeedbackConditions]
    refine List.findSome?_eq_none_iff.mpr fun ce hce => ?_
    refine List.findSome?_eq_none_iff.mpr fun ie hie => ?_
    have hmem : ie.2 ∈ ce.2.instruction_table := List.getElem?_mem (enum_mem_getElem? hie)
    have hok := h ce hce ie.2 hmem
    cases hop : ie.2.operation <;> try rfl
    case conditional_instruction c =>
      rw [hop] at hok
      simp only [condLabelOk, decide_eq_true_eq] at hok
      simp [hok]

theorem checkFeedbackConditions_some {p : Playlist} {e : ValidationError}
    (h : checkFeedbackConditions p = some e) :
    ∃ nm i cond, e = .unresolvedFeedbackLabel nm i cond ∧
      cond ∉ declaredFeedbackLabels p ∧
      ∃ ce ∈ p.channels, ce.1 = nm ∧ ∃ ie ∈ ce.2.instruction_table.enum, ie.1 = i ∧
        ∃ c, ie.2.operation = .conditional_instruction c ∧ c.condition = cond := by
  obtain ⟨ce, hce, hF⟩ := findSome?_mem h
  obtain ⟨ie, hie, hG⟩ := findSome?_mem hF
  split at hG
  case _ c hc =>
    split at hG
    · exact absurd hG (by simp)
    · next hnm =>
      obtain rfl := Option.some.inj hG
      exact ⟨ce.1, ie.1, c.condition, rfl, hnm, ce, hce, rfl, ie, hie, rfl, c, hc, rfl⟩
  all_goals exact absurd hG (by simp)

theorem validate_ok_iff_check8 {p : Playlist}
    (h1 : checkChannelsKnown p = none) (h2 : checkScheduleRefs p = none)
    (h3 : checkWaveformRefs p = none) (h4 : checkChannelCompat p = none)
    (h5 : checkMultiplexing p = none) (h6 : checkConditionals p = none)
    (h7 : checkReadoutTriggers p = none) :
    validate p = .ok () ↔ checkFeedbackConditions p = none := by
  cases h8 : checkFeedbackConditions p with
  | none => simp [validate, checks, firstSome, h1, h2, h3, h4, h5, h6, h7, h8]
  | some e => simp [validate, checks, firstSome, h1, h2, h3, h4, h5, h6, h7, h8]

/-- C5 counterexample: the claim as stated is false on the code's semantics.
This playlist contains a conditional with condition `lblX` and two threshold
state discriminations both declaring `feedback_signal_label = lblX`, each
referenced by a different readout trigger; the claim demands rejection with
`DuplicateFeedbackLabel` (and acceptance only with exactly one declaration),
but `setting.proto` explicitly allows the same label in different readout
triggers, so the playlist validates successfully. -/
theorem C5_feedback_routing_counterexample :
    validate exDupAcross = .ok () ∧
    (declaredFeedbackLabels exDupAcross).count lblX = 2 ∧
    (∃ ce ∈ exDupAcross.channels, ∃ ie ∈ ce.2.instruction_table.enum,
      ie.2.operation = .conditional_instruction ⟨lblX, 0, 1⟩) := by
  refine ⟨by decide, by decide, ?_⟩
  decide

/-- C5 (amended): when the preceding checks pass, a Playlist is accepted iff
every conditional's condition label is declared by at least one threshold
state discrimination anywhere in the Playlist (not exactly one); a conditional
whose condition matches no declaration is rejected with
`UnresolvedFeedbackLabel` naming the conditional and its condition; and a
non-empty feedback label referenced twice within the same readout trigger is
rejected with `DuplicateFeedbackLabel` (duplicates across different triggers
are legal). -/
theorem C5_feedback_routing_amended :
    (∀ p : Playlist,
      checkChannelsKnown p = none → checkScheduleRefs p = none →
      checkWaveformRefs p = none → checkChannelCompat p = none →
      checkMultiplexing p = none → checkConditionals p = none →
      checkReadoutTriggers p = none →
      (validate p = .ok () ↔ condLabelsResolve p)) ∧
    (∀ (p : Playlist) (e : ValidationError),
      checkChannelsKnown p = none → checkScheduleRefs p = none →
      checkWaveformRefs p = none → checkChannelCompat p = none →
      checkMultiplexing p = none → checkConditionals p = none →
      checkReadoutTriggers p = none → checkFeedbackConditions p = some e →
      validate p = .error e ∧
        ∃ nm i cond, e = .unresolvedFeedbackLabel nm i cond ∧
          cond ∉ declaredFeedbackLabels p) ∧
    validate exDupSame = .error (.duplicateFeedbackLabel chR 0 lblX) := by
  refine ⟨?_, ?_, by decide⟩
  · intro p h1 h2 h3 h4 h5 h6 h7
    rw [validate_ok_iff_check8 h1 h2 h3 h4 h5 h6 h7]
    exact checkFeedbackConditions_none_iff
  · intro p e h1 h2 h3 h4 h5 h6 h7 h8
    obtain ⟨nm, i, cond, rfl, hnm, -⟩ := checkFeedbackConditions_some h8
    exact ⟨validate_err8 h1 h2 h3 h4 h5 h6 h7 h8, nm, i, cond, rfl, hnm⟩

/-- Witness instantiating the amended C5: a playlist whose conditional
condition is declared (on another channel) is accepted, and a conditional
with an undeclared condition is rejected with `UnresolvedFeedbackLabel`
naming the channel, instruction index and condition. -/
theorem C5_feedback_routing_amended_witness :
    validate exNested = .ok () ∧
    validate exUnresolved = .error (.unresolvedFeedbackLabel chQ 2 lblY) :=
  ⟨(C5_feedback_routing_amended.1 exNested (by decide) (by decide) (by decide) (by decide)
      (by decide) (by decide) (by decide)).mpr (by decide),
   (C5_feedback_routing_amended.2.1 exUnresolved _ (by decide) (by decide) (by decide)
      (by decide) (by decide) (by decide) (by decide) (by decide)).1⟩

theorem firstSome_spec (l : List (Option α)) :
    (firstSome l = none ∧ ∀ c ∈ l, c = none) ∨
    (∃ (i : Nat) (e : α), l[i]? = some (some e) ∧ firstSome l = some e ∧
      ∀ j < i, l[j]? = some none) := by
  induction l with
  | nil => exact Or.inl ⟨rfl, by simp⟩
  | cons c t ih =>
    cases c with
    | some e =>
      refine Or.inr ⟨0, e, by simp, rfl, ?_⟩
      intro j hj
      omega
    | none =>
      rcases ih with ⟨hfs, hall⟩ | ⟨i, e, hi, hfs, hprev⟩
      · refine Or.inl ⟨hfs, ?_⟩
        intro x hx
        rcases List.mem_cons.mp hx with rfl | hx
        · rfl
        · exact hall x hx
      · refine Or.inr ⟨i + 1, e, by simpa using hi, hfs, ?_⟩
        intro j hj
        cases j with
        | zero => simp
        | succ j => simpa using hprev j (by omega)

/-- C8: the validator is a pure total Lean function; for every input Playlist
(including ones whose reference graphs are cyclic) it deterministically
returns either acceptance — in which case every check passes — or exactly the
first violation produced by the fixed check order (unknown channels, schedule
references, waveform references, channel compatibility, multiplexing,
conditionals, readout triggers, feedback labels). -/
theorem C8_validate_total_first_violation (p : Playlist) :
    (validate p = .ok () ∧ ∀ c ∈ checks p, c = none) ∨
    (∃ (i : Nat) (e : ValidationError), (checks p)[i]? = some (some e) ∧
      validate p = .error e ∧ ∀ j < i, (checks p)[j]? = some none) := by
  rcases firstSome_spec (checks p) with ⟨hfs, hall⟩ | ⟨i, e, hi, hfs, hprev⟩
  · exact Or.inl ⟨by unfold validate; rw [hfs], hall⟩
  · exact Or.inr ⟨i, e, hi, by unfold validate; rw [hfs], hprev⟩

/-! ### Executor lemmas -/

theorem foldl_add_sum {α : Type _} (l : List α) (f : α → ℚ) (init : ℚ) :
    l.foldl (fun acc e => acc + f e) init = init + (l.map f).sum := by
  induction l generalizing init with
  | nil => simp
  | cons x t ih => simp [ih, add_assoc]

theorem range_map_getD (d t : Nat) (f : Nat → ℚ) (ht : t < d) :
    ((List.range d).map f).getD t 0 = f t := by
  simp [List.getD_eq_getElem?_getD, List.getElem?_range, ht]

theorem mpxIQOutput_length (sem : ExecSem) (tbl : List Instruction)
    (entries : List MpxIQEntry) (d : Nat) : (mpxIQOutput sem tbl entries d).length = d := by
  simp [mpxIQOutput]

theorem mpxRealOutput_length (sem : ExecSem) (tbl : List Instruction)
    (entries : List MpxRealEntry) (d : Nat) :
    (mpxRealOutput sem tbl entries d).length = d := by
  simp [mpxRealOutput]

theorem mpxIQOutput_getD (sem : ExecSem) (tbl : List Instruction)
    (entries : List MpxIQEntry) {d t : Nat} (ht : t < d) :
    (mpxIQOutput sem tbl entries d).getD t 0 =
      (entries.map fun en => contribAt en.offset_samples (entryIQSamples sem tbl en) t).sum := by
  rw [mpxIQOutput, range_map_getD d t _ ht, foldl_add_sum, zero_add]

theorem mpxRealOutput_getD (sem : ExecSem) (tbl : List Instruction)
    (entries : List MpxRealEntry) {d t : Nat} (ht : t < d) :
    (mpxRealOutput sem tbl entries d).getD t 0 =
      (entries.map fun en => contribAt en.offset_samples (entryRealSamples sem tbl en) t).sum := by
  rw [mpxRealOutput, range_map_getD d t _ ht, foldl_add_sum, zero_add]

theorem contribAt_eq_zero {offset : Int} {s : List ℚ} {t : Nat}
    (h : (t : Int) - offset < 0 ∨ (s.length : Int) ≤ (t : Int) - offset) :
    contribAt offset s t = 0 := by
  unfold contribAt
  rcases h with h | h
  · rw [if_neg (by omega)]
  · rw [if_pos (by omega)]
    have hlen : s.length ≤ ((t : Int) - offset).toNat := by omega
    simp [List.getD_eq_getElem?_getD, List.getElem?_eq_none hlen]

theorem instrOutput_length (sem : ExecSem) (tbl : List Instruction) (ins : Instruction) :
    (instrOutput sem tbl ins).length = ins.duration_samples := by
  obtain ⟨d, op⟩ := ins
  cases op
  case readout_trigger t =>
    simp only [instrOutput]
    split
    · split <;> simp [fitTo, silence]
    · simp [silence]
  all_goals
    simp [instrOutput, silence, fitTo, mpxIQOutput, mpxRealOutput]

theorem channelCore_length (sem : ExecSem) (tbl : List Instruction) (refs : List Nat) :
    (channelCore sem tbl refs).length = channelSum tbl refs := by
  rw [channelCore, List.length_flatten, List.map_map, channelSum]
  congr 1
  apply List.map_congr_left
  intro r _
  simp only [Function.comp]
  cases h : tbl[r]? with
  | some ins => simp [refDuration, h, instrOutput_length]
  | none => simp [refDuration, h]

theorem init_le_foldl_max {α : Type _} (l : List α) (f : α → Nat) (init : Nat) :
    init ≤ l.foldl (fun acc e => max acc (f e)) init := by
  induction l generalizing init with
  | nil => simp
  | cons c t ih => exact le_trans (le_max_left _ _) (ih _)

theorem le_foldl_max {α : Type _} (l : List α) (f : α → Nat) (init : Nat) :
    ∀ x ∈ l, f x ≤ l.foldl (fun acc e => max acc (f e)) init := by
  induction l generalizing init with
  | nil => simp
  | cons c t ih =>
    intro x hx
    rcases List.mem_cons.mp hx with rfl | hx
    · exact le_trans (le_max_right init (f x)) (init_le_foldl_max t f _)
    · exact ih (max init (f c)) x hx

theorem foldl_max_cases {α : Type _} (l : List α) (f : α → Nat) (init : Nat) :
    l.foldl (fun acc e => max acc (f e)) init = init ∨
      ∃ x ∈ l, l.foldl (fun acc e => max acc (f e)) init = f x := by
  induction l generalizing init with
  | nil => simp
  | cons c t ih =>
    simp only [List.foldl_cons]
    rcases ih (max init (f c)) with h | ⟨x, hx, h⟩
    · rcases le_total (f c) init with hle | hle
      · left
        rw [h, max_eq_left hle]
      · right
        exact ⟨c, by simp, by rw [h, max_eq_right hle]⟩
    · exact Or.inr ⟨x, by simp [hx], h⟩

/-- C2: multiplexed pulse execution is exact linear superposition with
truncation: the output window has exactly `duration_samples` samples; each
sample is the sum, over the entries, of the entry's (offset-shifted) sample at
that position; a component sample falling outside the component stream, before
position zero, is dropped (contributes zero); positions covered by no
component are zero; and for two equal constant-amplitude components at
offsets `0` and `k < d` whose own streams cover `[0, d)`, the output is `a`
on `[0, k)` and `a + a` on `[k, d)`. -/
theorem C2_multiplexed_superposition :
    (∀ (sem : ExecSem) (tbl : List Instruction) (entries : List MpxIQEntry) (d : Nat),
      (mpxIQOutput sem tbl entries d).length = d ∧
      ∀ t, t < d → (mpxIQOutput sem tbl entries d).getD t 0 =
        (entries.map fun en =>
          contribAt en.offset_samples (entryIQSamples sem tbl en) t).sum) ∧
    (∀ (sem : ExecSem) (tbl : List Instruction) (entries : List MpxRealEntry) (d : Nat),
      (mpxRealOutput sem tbl entries d).length = d ∧
      ∀ t, t < d → (mpxRealOutput sem tbl entries d).getD t 0 =
        (entries.map fun en =>
          contribAt en.offset_samples (entryRealSamples sem tbl en) t).sum) ∧
    (∀ (offset : Int) (s : List ℚ) (t : Nat),
      ((t : Int) - offset < 0 ∨ (s.length : Int) ≤ (t : Int) - offset) →
      contribAt offset s t = 0) ∧
    (∀ (sem : ExecSem) (tbl : List Instruction) (entries : List MpxIQEntry) (d t : Nat),
      t < d →
      (∀ en ∈ entries, contribAt en.offset_samples (entryIQSamples sem tbl en) t = 0) →
      (mpxIQOutput sem tbl entries d).getD t 0 = 0) ∧
    (∀ (sem : ExecSem) (tbl : List Instruction) (p1 p2 : IQPulse) (a : ℚ) (k d : Nat),
      k < d → sem.iqSem p1 = List.replicate d a → sem.iqSem p2 = List.replicate d a →
      ∀ t, t < d →
        (mpxIQOutput sem tbl [⟨0, .iq_pulse p1⟩, ⟨(k : Int), .iq_pulse p2⟩] d).getD t 0 =
          if t < k then a else a + a) := by
  refine ⟨?_, ?_, fun offset s t h => contribAt_eq_zero h, ?_, ?_⟩
  · intro sem tbl entries d
    exact ⟨mpxIQOutput_length sem tbl entries d,
      fun t ht => mpxIQOutput_getD sem tbl entries ht⟩
  · intro sem tbl entries d
    exact ⟨mpxRealOutput_length sem tbl entries d,
      fun t ht => mpxRealOutput_getD sem tbl entries ht⟩
  · intro sem tbl entries d t ht hz
    rw [mpxIQOutput_getD sem tbl entries ht]
    exact List.sum_eq_zero fun x hx => by
      obtain ⟨en, hen, rfl⟩ := List.mem_map.mp hx
      exact hz en hen
  · intro sem tbl p1 p2 a k d hkd hp1 hp2 t ht
    rw [mpxIQOutput_getD sem tbl _ ht]
    have hc1 : contribAt 0 (entryIQSamples sem tbl ⟨0, .iq_pulse p1⟩) t = a := by
      simp only [entryIQSamples, hp1, contribAt]
      rw [if_pos (by omega)]
      have htn : ((t : Int) - 0).toNat = t := by omega
      rw [htn]
      simp [List.getD_eq_getElem?_getD, List.getElem?_replicate, ht]
    by_cases htk : t < k
    · have hc2 : contribAt (k : Int) (entryIQSamples sem tbl ⟨(k : Int), .iq_pulse p2⟩) t = 0 := by
        apply contribAt_eq_zero
        left
        omega
      simp [hc1, hc2, htk]
    · have hc2 : contribAt (k : Int) (entryIQSamples sem tbl ⟨(k : Int), .iq_pulse p2⟩) t = a := by
        simp only [entryIQSamples, hp2, contribAt]
        rw [if_pos (by omega)]
        have htn : ((t : Int) - k).toNat = t - k := by omega
        rw [htn]
        simp only [List.getD_eq_getElem?_getD, List.getElem?_replicate]
        rw [if_pos (by omega)]
        rfl
      simp [hc1, hc2, htk]

/-- Witness instantiating C2 on a concrete oracle: two constant unit-amplitude
pulses at offsets 0 and 2 in a window of 4 samples superpose to 2 at sample 3,
and the output window length equals the declared duration. -/
theorem C2_multiplexed_superposition_witness :
    (mpxIQOutput exSem [] [⟨0, .iq_pulse zeroIQPulse⟩, ⟨2, .iq_pulse zeroIQPulse⟩] 4).getD 3 0
      = 1 + 1 ∧
    (mpxIQOutput exSem [] [] 5).length = 5 := by
  constructor
  · have h := C2_multiplexed_superposition.2.2.2.2 exSem [] zeroIQPulse zeroIQPulse 1 2 4
      (by decide) rfl rfl 3 (by decide)
    simpa using h
  · exact (C2_multiplexed_superposition.1 exSem [] [] 5).1

/-- C3: for every Schedule of an accepted Playlist, the Schedule duration is
the maximum over its channels of the sum of the channel's referenced
instruction durations (it bounds every channel and is attained by one when any
channel exists), every channel's output stream has exactly the Schedule
duration in samples, and a channel whose instructions sum to less than the
Schedule duration is zero-padded from the end of its last instruction to the
barrier. -/
theorem C3_schedule_barrier (sem : ExecSem) (p : Playlist)
    (hval : validate p = .ok ()) :
    ∀ sched ∈ p.schedules,
      (sched.channels ≠ [] → ∃ e2 ∈ sched.channels,
        channelSum (tableOf p e2.1) e2.2.instruction_refs = scheduleDuration p sched) ∧
      ∀ e ∈ sched.channels,
        channelSum (tableOf p e.1) e.2.instruction_refs ≤ scheduleDuration p sched ∧
        (channelStream sem p sched e).length = scheduleDuration p sched ∧
        ∀ t, channelSum (tableOf p e.1) e.2.instruction_refs ≤ t →
          t < scheduleDuration p sched → (channelStream sem p sched e).getD t 0 = 0 := by
  intro sched hsched
  constructor
  · intro hne
    rcases foldl_max_cases sched.channels
        (fun e => channelSum (tableOf p e.1) e.2.instruction_refs) 0 with h0 | ⟨x, hx, hxx⟩
    · obtain ⟨e2, he2⟩ := List.exists_mem_of_ne_nil _ hne
      have hle := le_foldl_max sched.channels
        (fun e => channelSum (tableOf p e.1) e.2.instruction_refs) 0 e2 he2
      refine ⟨e2, he2, ?_⟩
      have hle2 : channelSum (tableOf p e2.1) e2.2.instruction_refs ≤
          sched.channels.foldl
            (fun acc e => max acc (channelSum (tableOf p e.1) e.2.instruction_refs)) 0 := hle
      have h02 : sched.channels.foldl
          (fun acc e => max acc (channelSum (tableOf p e.1) e.2.instruction_refs)) 0 = 0 := h0
      show channelSum (tableOf p e2.1) e2.2.instruction_refs = scheduleDuration p sched
      unfold scheduleDuration
      omega
    · exact ⟨x, hx, hxx.symm⟩
  · intro e he
    have hle : channelSum (tableOf p e.1) e.2.instruction_refs ≤ scheduleDuration p sched :=
      le_foldl_max sched.channels
        (fun e => channelSum (tableOf p e.1) e.2.instruction_refs) 0 e he
    have hcl := channelCore_length sem (tableOf p e.1) e.2.instruction_refs
    refine ⟨hle, ?_, ?_⟩
    · simp only [channelStream, List.length_append, silence, List.length_replicate]
      omega
    · intro t hts htD
      have h1 : (channelCore sem (tableOf p e.1) e.2.instruction_refs).length ≤ t := by
        omega
      simp only [channelStream, List.getD_eq_getElem?_getD,
        List.getElem?_append_right h1, silence, List.getElem?_replicate]
      split <;> simp

/-- Witness instantiating C3 on the concrete two-channel playlist: channel `a`
sums to 100 samples, channel `b` to 60, the Schedule duration is 100, and
channel `b`'s stream is zero at sample 80 (inside the 40-sample padding). -/
theorem C3_schedule_barrier_witness :
    scheduleDuration exBarrier ⟨[(chA, ⟨[0]⟩), (chB, ⟨[0]⟩)]⟩ = 100 ∧
    channelSum (tableOf exBarrier chB) [0] = 60 ∧
    (channelStream exSemZero exBarrier ⟨[(chA, ⟨[0]⟩), (chB, ⟨[0]⟩)]⟩ (chB, ⟨[0]⟩)).length
      = 100 ∧
    (channelStream exSemZero exBarrier ⟨[(chA, ⟨[0]⟩), (chB, ⟨[0]⟩)]⟩ (chB, ⟨[0]⟩)).getD 80 0
      = 0 := by
  have h := C3_schedule_barrier exSemZero exBarrier (by decide)
    ⟨[(chA, ⟨[0]⟩), (chB, ⟨[0]⟩)]⟩ (by decide)
  have hb := h.2 (chB, ⟨[0]⟩) (by decide)
  refine ⟨by decide, by decide, ?_, ?_⟩
  · rw [hb.2.1]
    decide
  · exact hb.2.2 80 (by decide) (by decide)

/-- C9: executing a `Wait` instruction of duration `d` produces exactly `d`
zero-valued samples — the very silence used for implicit barrier padding:
`silence d = List.replicate d 0`, every sample position reads zero, and the
barrier padding of a channel stream is made of the same `silence`. -/
theorem C9_wait_plays_silence :
    (∀ (sem : ExecSem) (tbl : List Instruction) (d : Nat),
      instrOutput sem tbl ⟨d, .wait⟩ = silence d ∧
      (instrOutput sem tbl ⟨d, .wait⟩).length = d ∧
      ∀ t : Nat, (instrOutput sem tbl ⟨d, .wait⟩).getD t 0 = 0) ∧
    (∀ d : Nat, silence d = List.replicate d 0) ∧
    (∀ (sem : ExecSem) (p : Playlist) (sched : Schedule) (e : String × ScheduleChannel),
      channelStream sem p sched e =
        channelCore sem (tableOf p e.1) e.2.instruction_refs ++
          silence (scheduleDuration p sched -
            (channelCore sem (tableOf p e.1) e.2.instruction_refs).length)) := by
  refine ⟨?_, fun d => rfl, fun sem p sched e => rfl⟩
  intro sem tbl d
  refine ⟨rfl, by simp [instrOutput, silence], ?_⟩
  intro t
  simp [instrOutput, silence, List.getD_eq_getElem?_getD, List.getElem?_replicate]
  split <;> simp

/-! ### Acquisition integration lemmas -/

theorem padTo_append_zero {w : List ℚ} {m n : Nat} (h : w.length + m ≤ n) :
    padTo n (w ++ List.replicate m 0) = padTo n w := by
  simp only [padTo, List.append_assoc, List.length_append, List.length_replicate]
  congr 1
  rw [← List.replicate_add]
  congr 1
  omega

/-- C10: for weighted integrations (`ComplexIntegration` and
`ThresholdStateDiscrimination`) the total integration window is the maximum
of the lengths of the I and Q integration weight vectors, and padding the
shorter weights vector with zeros (up to the window) changes neither the
window nor the acquisition result. -/
theorem C10_integration_window_padding :
    (∀ wI wQ : List ℚ, integrationWindow wI wQ = max wI.length wQ.length) ∧
    (∀ (wfSem : Waveform → List ℚ) (desc : ChannelDescription) (w : IQPulse)
        (θ : ℚ) (lbl : String),
      acqIntegrationWindow wfSem desc (.integration w) =
        integrationWindow (resolveWeightVector wfSem desc w.waveform_i_ref)
          (resolveWeightVector wfSem desc w.waveform_q_ref) ∧
      acqIntegrationWindow wfSem desc (.threshold_discrimination w θ lbl) =
        acqIntegrationWindow wfSem desc (.integration w)) ∧
    (∀ (sigI sigQ : Nat → ℚ) (wI wQ : List ℚ) (m : Nat),
      wQ.length + m ≤ integrationWindow wI wQ →
      integrationWindow wI (wQ ++ List.replicate m 0) = integrationWindow wI wQ ∧
      integrationResult sigI sigQ wI (wQ ++ List.replicate m 0) =
        integrationResult sigI sigQ wI wQ) ∧
    (∀ (sigI sigQ : Nat → ℚ) (wI wQ : List ℚ) (m : Nat),
      wI.length + m ≤ integrationWindow wI wQ →
      integrationWindow (wI ++ List.replicate m 0) wQ = integrationWindow wI wQ ∧
      integrationResult sigI sigQ (wI ++ List.replicate m 0) wQ =
        integrationResult sigI sigQ wI wQ) := by
  refine ⟨fun wI wQ => rfl, fun wfSem desc w θ lbl => ⟨rfl, rfl⟩, ?_, ?_⟩
  · intro sigI sigQ wI wQ m h
    have hwin : integrationWindow wI (wQ ++ List.replicate m 0) = integrationWindow wI wQ := by
      simp only [integrationWindow, List.length_append, List.length_replicate] at h ⊢
      omega
    refine ⟨hwin, ?_⟩
    simp only [integrationResult, hwin,
      padTo_append_zero (le_trans h (le_of_eq rfl))]
  · intro sigI sigQ wI wQ m h
    have hwin : integrationWindow (wI ++ List.replicate m 0) wQ = integrationWindow wI wQ := by
      simp only [integrationWindow, List.length_append, List.length_replicate] at h ⊢
      omega
    refine ⟨hwin, ?_⟩
    simp only [integrationResult, hwin,
      padTo_append_zero (le_trans h (le_of_eq rfl))]

/-- Witness instantiating C10: with I weights of length 2 and Q weights of
length 1, the window is 2 and appending one zero to the Q weights leaves the
integration result unchanged. -/
theorem C10_integration_window_padding_witness :
    integrationWindow [1, 1] [1] = 2 ∧
    ((1 : ℚ) : ℚ) = 1 ∧
    integrationResult (fun _ => 1) (fun _ => 1) [1, 1] ([1] ++ List.replicate 1 0) =
      integrationResult (fun _ => 1) (fun _ => 1) [1, 1] [1] := by
  refine ⟨by decide, rfl, ?_⟩
  exact (C10_integration_window_padding.2.2.1 (fun _ => 1) (fun _ => 1) [1, 1] [1] 1
    (by decide)).2

end IqmPlaylist
